import Mathlib

/-!
Verification of the conversion service of `ipynb_to_html`
(`src/ipynb_to_html.py`, class `NotebookToHTMLConverter`).

The Python code is embedded shallowly:

* a filesystem path is a list of components (`FsPath`);
* the filesystem is an explicit association list from paths to entries
  (`FS`), threaded through every operation; Python `open`, `Path.mkdir`,
  `Path.glob`, `Path.exists`, `Path.is_dir` become executable Lean
  functions on `FS`.  OS-level failure modes that the design treats as
  below its abstraction (permissions, platform-specific errno mapping for
  `mkdir(parents=True)`) are not modelled;
* the external collaborators (`nbformat.read`, `ExecutePreprocessor`,
  `HTMLExporter.from_notebook_node`, and the BeautifulSoup-based
  `_enhance_html_output` post-processing) are abstract deterministic
  functions bundled in the `Converter` structure, over an abstract
  notebook type `Nb`;
* Python exceptions become the `Err` inductive and `Except` results;
  `print` logging of per-file batch failures becomes an explicit list of
  failed paths returned by the batch loop.
-/

/-- A filesystem path, as a list of name components (absolute, rooted at `[]`). -/
abbrev FsPath := List String

/-- Render a path for error messages. -/
def FsPath.render (p : FsPath) : String := String.intercalate "/" p

/-- The final component of a path (`Path.name` in pathlib); `""` for the root. -/
def lastName (p : FsPath) : String := p.getLast?.getD ""

/-- Index of the last occurrence of `'.'` in a character list
(models Python `str.rfind('.')` restricted to success/failure). -/
def rfindDot : List Char → Option Nat
  | [] => none
  | c :: rest =>
    match rfindDot rest with
    | some i => some (i + 1)
    | none => if c = '.' then some 0 else none

/-- The extension of a file name, models `pathlib.PurePath.suffix`:
the part of the name from the last dot, provided that dot is neither the
first nor the last character; otherwise `""`. -/
def pySuffix (name : String) : String :=
  match rfindDot name.data with
  | some i => if 0 < i ∧ i + 1 < name.data.length then ⟨name.data.drop i⟩ else ""
  | none => ""

/-- The file name without its extension, models `pathlib.PurePath.stem`. -/
def pyStem (name : String) : String :=
  ⟨name.data.take (name.data.length - (pySuffix name).data.length)⟩

/-- Replace the extension of a path's final component,
models `pathlib.PurePath.with_suffix`. -/
def withSuffix (p : FsPath) (suf : String) : FsPath :=
  p.dropLast ++ [pyStem (lastName p) ++ suf]

/-- ASCII lower-casing of a string, models Python `str.lower()` on the
ASCII extensions the code compares (`.suffix.lower() == '.ipynb'`). -/
def strLower (s : String) : String := ⟨s.data.map Char.toLower⟩

/-- A filesystem entry: a regular file with its text content, or a directory. -/
inductive Entry
  | file (content : String)
  | dir
deriving DecidableEq

/-- The filesystem state: an association list from paths to entries.
The root `[]` is implicitly a directory and carries no entry. -/
structure FS where
  entries : List (FsPath × Entry)
deriving DecidableEq

/-- First-match lookup in an entry list. -/
def lookupEntries : List (FsPath × Entry) → FsPath → Option Entry
  | [], _ => none
  | (q, e) :: rest, p => if q = p then some e else lookupEntries rest p

/-- Look up the entry at a path. -/
def FS.lookup (fs : FS) (p : FsPath) : Option Entry :=
  lookupEntries fs.entries p

/-- Remove every binding of a given path from an entry list. -/
def removeKey (p : FsPath) : List (FsPath × Entry) → List (FsPath × Entry)
  | [] => []
  | (q, e) :: rest => if q = p then removeKey p rest else (q, e) :: removeKey p rest

/-- Insert or replace the entry at a path. -/
def FS.insert (fs : FS) (p : FsPath) (e : Entry) : FS :=
  ⟨(p, e) :: removeKey p fs.entries⟩

/-- Models `Path.exists()`. The root always exists. -/
def FS.pathExists (fs : FS) (p : FsPath) : Bool :=
  p.isEmpty || (fs.lookup p).isSome

/-- Models `Path.is_dir()`. The root is always a directory. -/
def FS.isDir (fs : FS) (p : FsPath) : Bool :=
  p.isEmpty ||
    (match fs.lookup p with
     | some Entry.dir => true
     | _ => false)

/-- Possible errors of the conversion service, modelling the Python
exceptions raised or propagated by the code: `FileNotFoundError`,
`ValueError` (wrong extension, the spec's `InvalidFormatError`),
`IsADirectoryError`, `FileExistsError`, `NotADirectoryError`, and a
catch-all for exceptions escaping the external libraries (the spec's
`ConversionError`). -/
inductive Err
  | fileNotFound (msg : String)
  | invalidFormat (msg : String)
  | isADirectory (msg : String)
  | fileExists (msg : String)
  | notADirectory (msg : String)
  | conversionError (msg : String)
deriving DecidableEq

/-- Models `open(p, 'r')` followed by reading: needs a regular file at `p`. -/
def FS.readFile (fs : FS) (p : FsPath) : Except Err String :=
  match fs.lookup p with
  | some (Entry.file c) => Except.ok c
  | some Entry.dir => Except.error (Err.isADirectory p.render)
  | none =>
    if p.isEmpty then Except.error (Err.isADirectory p.render)
    else Except.error (Err.fileNotFound p.render)

/-- Does some strict, nonempty prefix of `p` exist as a regular file?
Resolving such a path fails with `ENOTDIR` (`NotADirectoryError`). -/
def FS.hasFileAncestor (fs : FS) (p : FsPath) : Bool :=
  (List.range p.length).any (fun i =>
    match fs.lookup (p.take i) with
    | some (Entry.file _) => true
    | _ => false)

/-- Models `open(p, 'w')` followed by writing `c`: the parent must be an
existing directory, and `p` itself must not be a directory.  When the
parent is not a directory, the error follows POSIX resolution: a regular
file occupying an ancestor component gives `NotADirectoryError`
(`ENOTDIR`); an absent parent gives `FileNotFoundError` (`ENOENT`). -/
def FS.writeFile (fs : FS) (p : FsPath) (c : String) : Except Err FS :=
  if p.isEmpty then Except.error (Err.isADirectory p.render)
  else if !(fs.isDir p.dropLast) then
    (if fs.hasFileAncestor p then Except.error (Err.notADirectory p.render)
     else Except.error (Err.fileNotFound p.render))
  else
    match fs.lookup p with
    | some Entry.dir => Except.error (Err.isADirectory p.render)
    | _ => Except.ok (fs.insert p (Entry.file c))

/-- Models `Path.mkdir(exist_ok=existOk)` (no `parents`): the parent must be
an existing directory; an existing directory at `p` is tolerated exactly
when `existOk` is set; an existing file is always an error. -/
def FS.mkdir (fs : FS) (p : FsPath) (existOk : Bool) : Except Err FS :=
  if p.isEmpty then
    if existOk then Except.ok fs else Except.error (Err.fileExists p.render)
  else
    match fs.lookup p with
    | some Entry.dir =>
      if existOk then Except.ok fs else Except.error (Err.fileExists p.render)
    | some (Entry.file _) => Except.error (Err.fileExists p.render)
    | none =>
      if fs.isDir p.dropLast then Except.ok (fs.insert p Entry.dir)
      else Except.error (Err.fileNotFound p.render)

/-- Worker for `FS.mkdirParents`: walk the components of the target,
keeping existing directories, creating missing ones, and failing on a
regular file in the way — `FileExistsError` when the file is the target
itself (pathlib's `exist_ok` only tolerates an existing directory),
`NotADirectoryError` (`ENOTDIR`, as on Linux) when it is an intermediate
component.  The filesystem accumulated so far is returned with the
error. -/
def mkdirParentsGo (fs : FS) (done : FsPath) : FsPath → FS × Except Err Unit
  | [] => (fs, Except.ok ())
  | c :: rest =>
    match fs.lookup (done ++ [c]) with
    | some Entry.dir => mkdirParentsGo fs (done ++ [c]) rest
    | some (Entry.file _) =>
      (fs, if rest.isEmpty then Except.error (Err.fileExists (done ++ [c]).render)
           else Except.error (Err.notADirectory (done ++ [c]).render))
    | none => mkdirParentsGo (fs.insert (done ++ [c]) Entry.dir) (done ++ [c]) rest

/-- Models `Path.mkdir(parents=True, exist_ok=True)`: create every missing
ancestor of `p` and `p` itself as directories, raising when a regular
file occupies the target (`FileExistsError`) or an intermediate component
(`NotADirectoryError`). -/
def FS.mkdirParents (fs : FS) (p : FsPath) : FS × Except Err Unit :=
  mkdirParentsGo fs [] p

/-- Boolean component-wise test that `l₁` is a prefix of `l₂`. -/
def isPrefixOfB : FsPath → FsPath → Bool
  | [], _ => true
  | _ :: _, [] => false
  | a :: l1, b :: l2 => if a = b then isPrefixOfB l1 l2 else false

/-- Test whether `f` holds of some suffix (improper and empty included) of
a list. -/
def anySuffix {α : Type} (f : List α → Bool) : List α → Bool
  | [] => f []
  | c :: s => f (c :: s) || anySuffix f s

/-- Single-component wildcard matching, models `fnmatch` for patterns built
from literal characters and `*` (what `pathlib.Path.glob` uses per
component): `*` matches any, possibly empty, sequence of characters. -/
def fnMatch : List Char → List Char → Bool
  | [], s => s.isEmpty
  | p :: ps, s =>
    if p = '*' then anySuffix (fnMatch ps) s
    else
      match s with
      | [] => false
      | c :: s' => (p = c) && fnMatch ps s'

/-- Multi-component glob-pattern matching, models `pathlib.Path.glob`
pattern semantics: the component `**` matches any, possibly empty,
sequence of components; any other component is matched by `fnMatch`. -/
def globMatch : List String → List String → Bool
  | [], comps => comps.isEmpty
  | p :: ps, comps =>
    if p = "**" then anySuffix (globMatch ps) comps
    else
      match comps with
      | [] => false
      | c :: cs => fnMatch p.data c.data && globMatch ps cs

/-- Split a character list at every `'/'`, models `str.split('/')`. -/
def splitOnSlash : List Char → List (List Char)
  | [] => [[]]
  | c :: rest =>
    match splitOnSlash rest with
    | [] => [[]]
    | comp :: comps => if c = '/' then [] :: comp :: comps else (c :: comp) :: comps

/-- Split a glob pattern string on `/` into components. -/
def splitPattern (s : String) : List String := (splitOnSlash s.data).map List.asString

/-- Models `dir.glob(pattern)`: every recorded path that lies under `dir`
and whose path relative to `dir` matches the pattern. -/
def FS.glob (fs : FS) (dir : FsPath) (pat : List String) : List FsPath :=
  fs.entries.filterMap
    (fun e =>
      if isPrefixOfB dir e.1 && globMatch pat (e.1.drop dir.length) then some e.1
      else none)

/-- The converter object (`NotebookToHTMLConverter.__init__`): the
configuration flags, plus the external collaborators it delegates to,
over an abstract notebook type `Nb`:

* `readNb` models `nbformat.read` applied to the file's text;
* `execNb` models `ExecutePreprocessor(timeout=600).preprocess` run with
  the given working directory, either returning the executed notebook or
  failing;
* `from_notebook_node` models the configured
  `HTMLExporter.from_notebook_node`, returning the HTML body and the
  `resources['outputs']` mapping (filename, binary payload) — empty when
  everything was embedded;
* `enhance_html_output` models `_enhance_html_output`, the
  BeautifulSoup-based CSS-injection pass (lines 76–144).

`embed_images`, `include_input` and `template` only configure the
external exporter at `__init__` time, so they carry no further meaning
inside the embedding. -/
structure Converter (Nb : Type) where
  embed_images : Bool := true
  include_input : Bool := true
  execute_notebook : Bool := false
  template : String := "classic"
  readNb : String → Except String Nb
  execNb : FsPath → Nb → Except String Nb
  from_notebook_node : Nb → String × List (String × String)
  enhance_html_output : String → String

/-- Models `_execute_notebook` (lines 58–74): read and parse the notebook
(failures here propagate), then run it; an execution failure is caught,
logged, and the unexecuted notebook is returned. -/
def executeNotebook {Nb : Type} (cv : Converter Nb) (fs : FS)
    (notebook_path : FsPath) : Except Err Nb :=
  match fs.readFile notebook_path with
  | Except.error e => Except.error e
  | Except.ok content =>
    match cv.readNb content with
    | Except.error m => Except.error (Err.conversionError m)
    | Except.ok notebook =>
      match cv.execNb notebook_path.dropLast notebook with
      | Except.ok executed => Except.ok executed
      | Except.error _ => Except.ok notebook

/-- Models lines 174–179 of `convert_single_file`: load the notebook,
executing it first when `execute_notebook` is set. -/
def loadNotebook {Nb : Type} (cv : Converter Nb) (fs : FS)
    (input_path : FsPath) : Except Err Nb :=
  if cv.execute_notebook then executeNotebook cv fs input_path
  else
    match fs.readFile input_path with
    | Except.error e => Except.error e
    | Except.ok content =>
      match cv.readNb content with
      | Except.error m => Except.error (Err.conversionError m)
      | Except.ok notebook => Except.ok notebook

/-- The side-car resource directory of an output path, models line 193:
`output_path.parent / f"{output_path.stem}_files"`. -/
def sidecarDir (output_path : FsPath) : FsPath :=
  output_path.dropLast ++ [pyStem (lastName output_path) ++ "_files"]

/-- Models the loop at lines 196–199: write each resource under the
side-car directory; the filesystem reached so far is kept on failure. -/
def writeResources (fs : FS) (outDir : FsPath) :
    List (String × String) → FS × Except Err Unit
  | [] => (fs, Except.ok ())
  | (filename, data) :: rest =>
    match fs.writeFile (outDir ++ [filename]) data with
    | Except.error e => (fs, Except.error e)
    | Except.ok fs' => writeResources fs' outDir rest

/-- The `try` block of `convert_single_file` (lines 173–202), with the
output path already resolved: load (and optionally execute) the notebook,
render it, post-process the HTML, write the HTML file, and write any
non-embedded resources into the side-car directory. -/
def convertBody {Nb : Type} (cv : Converter Nb) (fs : FS)
    (input_path output_path : FsPath) : FS × Except Err FsPath :=
  match loadNotebook cv fs input_path with
  | Except.error e => (fs, Except.error e)
  | Except.ok notebook =>
    match fs.writeFile output_path
        (cv.enhance_html_output (cv.from_notebook_node notebook).1) with
    | Except.error e => (fs, Except.error e)
    | Except.ok fs1 =>
      if (cv.from_notebook_node notebook).2.isEmpty then (fs1, Except.ok output_path)
      else
        match fs1.mkdir (sidecarDir output_path) true with
        | Except.error e => (fs1, Except.error e)
        | Except.ok fs2 =>
          match writeResources fs2 (sidecarDir output_path)
              (cv.from_notebook_node notebook).2 with
          | (fs3, Except.error e) => (fs3, Except.error e)
          | (fs3, Except.ok _) => (fs3, Except.ok output_path)

/-- Models `convert_single_file` (lines 146–206).  Returns the filesystem
after the call together with either the output path (success) or the
exception re-raised at line 206.  Note that no parent directory of an
explicitly supplied `output_path` is created here. -/
def convert_single_file {Nb : Type} (cv : Converter Nb) (fs : FS)
    (input_path : FsPath) (output_path? : Option FsPath) :
    FS × Except Err FsPath :=
  if !(fs.pathExists input_path) then
    (fs, Except.error (Err.fileNotFound ("Input file not found: " ++ input_path.render)))
  else if strLower (pySuffix (lastName input_path)) ≠ ".ipynb" then
    (fs, Except.error (Err.invalidFormat ("Input file must be a .ipynb file: " ++ input_path.render)))
  else
    convertBody cv fs input_path (output_path?.getD (withSuffix input_path ".html"))

/-- Models the per-file loop of `convert_directory` (lines 240–252):
for each enumerated file, mirror its path relative to `input_dir` under
`output_dir` with the extension replaced, create the intermediate
directories, convert, and either collect the result or catch the failure.
The third component records the files whose failure was logged by the
`print` at line 251. -/
def convertLoop {Nb : Type} (cv : Converter Nb) (input_dir output_dir : FsPath) :
    List FsPath → FS → FS × List FsPath × List FsPath
  | [], fs => (fs, [], [])
  | f :: rest, fs =>
    match fs.mkdirParents
        (output_dir ++ withSuffix (f.drop input_dir.length) ".html").dropLast with
    | (fs1, Except.error _) =>
      match convertLoop cv input_dir output_dir rest fs1 with
      | (fsr, conv, fail) => (fsr, conv, f :: fail)
    | (fs1, Except.ok _) =>
      match convert_single_file cv fs1
          f (some (output_dir ++ withSuffix (f.drop input_dir.length) ".html")) with
      | (fs2, Except.ok converted) =>
        match convertLoop cv input_dir output_dir rest fs2 with
        | (fsr, conv, fail) => (fsr, converted :: conv, fail)
      | (fs2, Except.error _) =>
        match convertLoop cv input_dir output_dir rest fs2 with
        | (fsr, conv, fail) => (fsr, conv, f :: fail)

/-- The enumeration and per-file loop of `convert_directory` (lines
229–254), with the output directory already resolved: glob the `*.ipynb`
files (recursively when asked) and run the per-file loop, returning the
successfully converted paths. -/
def convertDirectoryBody {Nb : Type} (cv : Converter Nb) (fs : FS)
    (input_dir output_dir : FsPath) (recursive : Bool) :
    FS × Except Err (List FsPath) :=
  if (fs.glob input_dir
      (splitPattern (if recursive then "**/*.ipynb" else "*.ipynb"))).isEmpty then
    (fs, Except.ok [])
  else
    match convertLoop cv input_dir output_dir
        (fs.glob input_dir
          (splitPattern (if recursive then "**/*.ipynb" else "*.ipynb"))) fs with
    | (fsr, conv, _) => (fsr, Except.ok conv)

/-- Models `convert_directory` (lines 208–254): check the root directory,
resolve — and, when explicitly given, create — the output directory, then
enumerate and convert.  The `output_dir.mkdir(parents=True,
exist_ok=True)` at line 227 sits outside any `try`, so its failure
(a regular file occupying `output_dir` or one of its components)
propagates out of the call. -/
def convert_directory {Nb : Type} (cv : Converter Nb) (fs : FS)
    (input_dir : FsPath) (output_dir? : Option FsPath) (recursive : Bool) :
    FS × Except Err (List FsPath) :=
  if !(fs.pathExists input_dir) || !(fs.isDir input_dir) then
    (fs, Except.error (Err.notADirectory ("Input directory not found: " ++ input_dir.render)))
  else
    match output_dir? with
    | none => convertDirectoryBody cv fs input_dir input_dir recursive
    | some d =>
      match fs.mkdirParents d with
      | (fs1, Except.error e) => (fs1, Except.error e)
      | (fs1, Except.ok _) => convertDirectoryBody cv fs1 input_dir d recursive

/-! ## Concrete sample instantiations, used to evaluate the theorems on
closed inputs -/

/-- Concrete external collaborators over the trivial notebook type: the
text "malformed" fails to parse, anything else parses; rendering yields a
fixed body with no extra resources; the CSS pass prepends a style block. -/
def sampleCv : Converter Unit where
  readNb := fun s => if s = "malformed" then Except.error "bad notebook" else Except.ok ()
  execNb := fun _ _ => Except.error "no kernel"
  from_notebook_node := fun _ => ("<html><body>nb</body></html>", [])
  enhance_html_output := fun h => "<style>css</style>" ++ h

/-- Collaborators whose rendering emits one non-embedded image resource. -/
def sampleCvRes : Converter Unit where
  readNb := fun _ => Except.ok ()
  execNb := fun _ _ => Except.ok ()
  from_notebook_node := fun _ => ("<html></html>", [("output_1_0.png", "PNGDATA")])
  enhance_html_output := fun h => h

/-- The collaborators of `sampleCv` with execution enabled (and failing). -/
def sampleCvExec : Converter Unit := { sampleCv with execute_notebook := true }

/-- One notebook file at the filesystem root. -/
def fsSingle : FS := ⟨[(["nb.ipynb"], Entry.file "cells")]⟩

/-- One notebook file with an upper-case extension. -/
def fsUpper : FS := ⟨[(["NB.IPYNB"], Entry.file "cells")]⟩

/-- A non-notebook text file. -/
def fsNotes : FS := ⟨[(["notes.txt"], Entry.file "text")]⟩

/-- A directory with two parseable notebooks and one malformed one. -/
def fsBatch : FS := ⟨[(["nbs"], Entry.dir),
  (["nbs", "a.ipynb"], Entry.file "ok1"),
  (["nbs", "b.ipynb"], Entry.file "ok2"),
  (["nbs", "bad.ipynb"], Entry.file "malformed")]⟩

/-- A notebook nested one directory below the enumeration root. -/
def fsNested : FS := ⟨[(["root"], Entry.dir), (["root", "sub"], Entry.dir),
  (["root", "sub", "deep.ipynb"], Entry.file "ok")]⟩

/-- A valid notebook directory plus a regular file that blocks the
creation of an output directory requested beneath it. -/
def fsBlock : FS := ⟨[(["nbs"], Entry.dir),
  (["nbs", "a.ipynb"], Entry.file "ok1"),
  (["blocker"], Entry.file "data")]⟩

/-! ## Basic filesystem lemmas -/

theorem lookupEntries_removeKey (l : List (FsPath × Entry)) (p q : FsPath) (h : q ≠ p) :
    lookupEntries (removeKey p l) q = lookupEntries l q := by
  induction l with
  | nil => rfl
  | cons a rest ih =>
    obtain ⟨r, e⟩ := a
    simp only [removeKey, lookupEntries]
    by_cases hr : r = p
    · have hrq : ¬(r = q) := fun hq2 => h (hq2 ▸ hr)
      rw [if_pos hr, if_neg hrq, ih]
    · rw [if_neg hr]
      simp only [lookupEntries]
      by_cases hq : r = q
      · rw [if_pos hq, if_pos hq]
      · rw [if_neg hq, if_neg hq, ih]

theorem FS.lookup_insert_self (fs : FS) (p : FsPath) (e : Entry) :
    (fs.insert p e).lookup p = some e := by
  simp [FS.lookup, FS.insert, lookupEntries]

theorem FS.lookup_insert_ne (fs : FS) (p q : FsPath) (e : Entry) (h : q ≠ p) :
    (fs.insert p e).lookup q = fs.lookup q := by
  have hpq : ¬(p = q) := fun hp => h hp.symm
  simp only [FS.lookup, FS.insert, lookupEntries, hpq, if_false]
  exact lookupEntries_removeKey _ _ _ h

theorem FS.isDir_congr {fs fs' : FS} (q : FsPath)
    (h : fs'.lookup q = fs.lookup q) : fs'.isDir q = fs.isDir q := by
  simp [FS.isDir, h]

theorem FS.pathExists_congr {fs fs' : FS} (q : FsPath)
    (h : fs'.lookup q = fs.lookup q) : fs'.pathExists q = fs.pathExists q := by
  simp [FS.pathExists, h]

theorem FS.isDir_lookup {fs : FS} {q : FsPath} (hne : q ≠ [])
    (h : fs.isDir q = true) : fs.lookup q = some Entry.dir := by
  have h1 : q.isEmpty = false := by simp [hne]
  unfold FS.isDir at h
  rw [h1] at h
  simp only [Bool.false_or] at h
  split at h
  next heq => exact heq
  next => simp at h

theorem FS.writeFile_ok (fs : FS) (p : FsPath) (c : String)
    (hne : p ≠ []) (hpar : fs.isDir p.dropLast = true)
    (hnd : fs.lookup p ≠ some Entry.dir) :
    fs.writeFile p c = Except.ok (fs.insert p (Entry.file c)) := by
  have h1 : p.isEmpty = false := by simp [hne]
  unfold FS.writeFile
  rw [h1, hpar]
  simp only [Bool.not_true, Bool.false_eq_true, if_false]


theorem FS.mkdir_ok_cases (fs : FS) (p : FsPath)
    (hne : p ≠ []) (hpar : fs.isDir p.dropLast = true)
    (hnf : ∀ c, fs.lookup p ≠ some (Entry.file c)) :
    (fs.lookup p = some Entry.dir ∧ fs.mkdir p true = Except.ok fs) ∨
    (fs.lookup p = none ∧ fs.mkdir p true = Except.ok (fs.insert p Entry.dir)) := by
  have h1 : p.isEmpty = false := by simp [hne]
  unfold FS.mkdir
  rw [h1]
  simp only [Bool.false_eq_true, if_false]
  cases hl : fs.lookup p with
  | none => right; refine ⟨rfl, ?_⟩; rw [hpar]; simp
  | some e => cases e with
    | file d => exact absurd hl (hnf d)
    | dir => left; exact ⟨rfl, by simp⟩

/-! ## Error classification: which exception class each operation can raise -/

theorem FS.readFile_error {fs : FS} {p : FsPath} {e : Err}
    (h : fs.readFile p = Except.error e) :
    (∃ m, e = Err.fileNotFound m) ∨ (∃ m, e = Err.isADirectory m) := by
  unfold FS.readFile at h
  split at h
  · exact absurd h (by simp)
  · injection h with h'; exact Or.inr ⟨_, h'.symm⟩
  · split at h
    · injection h with h'; exact Or.inr ⟨_, h'.symm⟩
    · injection h with h'; exact Or.inl ⟨_, h'.symm⟩

theorem FS.writeFile_error {fs : FS} {p : FsPath} {c : String} {e : Err}
    (h : fs.writeFile p c = Except.error e) :
    (∃ m, e = Err.fileNotFound m) ∨ (∃ m, e = Err.isADirectory m) ∨
      (∃ m, e = Err.notADirectory m) := by
  unfold FS.writeFile at h
  split at h
  · injection h with h'; exact Or.inr (Or.inl ⟨_, h'.symm⟩)
  · split at h
    · split at h
      · injection h with h'; exact Or.inr (Or.inr ⟨_, h'.symm⟩)
      · injection h with h'; exact Or.inl ⟨_, h'.symm⟩
    · split at h
      · injection h with h'; exact Or.inr (Or.inl ⟨_, h'.symm⟩)
      · exact absurd h (by simp)

theorem FS.mkdir_error {fs : FS} {p : FsPath} {ok : Bool} {e : Err}
    (h : fs.mkdir p ok = Except.error e) :
    (∃ m, e = Err.fileExists m) ∨ (∃ m, e = Err.fileNotFound m) := by
  unfold FS.mkdir at h
  split at h
  · split at h
    · exact absurd h (by simp)
    · injection h with h'; exact Or.inl ⟨_, h'.symm⟩
  · split at h
    · split at h
      · exact absurd h (by simp)
      · injection h with h'; exact Or.inl ⟨_, h'.symm⟩
    · injection h with h'; exact Or.inl ⟨_, h'.symm⟩
    · split at h
      · exact absurd h (by simp)
      · injection h with h'; exact Or.inr ⟨_, h'.symm⟩

theorem writeResources_error {sc : FsPath} {l : List (String × String)} {fs fs' : FS} {e : Err}
    (h : writeResources fs sc l = (fs', Except.error e)) :
    (∃ m, e = Err.fileNotFound m) ∨ (∃ m, e = Err.isADirectory m) ∨
      (∃ m, e = Err.notADirectory m) := by
  induction l generalizing fs with
  | nil => simp [writeResources] at h
  | cons a rest ih =>
    obtain ⟨n, d⟩ := a
    unfold writeResources at h
    split at h
    next e' heq =>
      simp only [Prod.mk.injEq] at h
      injection h.2 with h2
      exact h2 ▸ FS.writeFile_error heq
    next fs1 heq => exact ih h

theorem loadNotebook_error {Nb : Type} {cv : Converter Nb} {fs : FS} {p : FsPath} {e : Err}
    (h : loadNotebook cv fs p = Except.error e) :
    (∃ m, e = Err.fileNotFound m) ∨ (∃ m, e = Err.isADirectory m) ∨
      (∃ m, e = Err.conversionError m) := by
  unfold loadNotebook executeNotebook at h
  split at h
  · split at h
    next e' heq =>
      injection h with h'
      rcases FS.readFile_error heq with ⟨m, hm⟩ | ⟨m, hm⟩
      · exact Or.inl ⟨m, h' ▸ hm⟩
      · exact Or.inr (Or.inl ⟨m, h' ▸ hm⟩)
    next content heq =>
      split at h
      next m heq2 => injection h with h'; exact Or.inr (Or.inr ⟨m, h'.symm⟩)
      next nb heq2 =>
        split at h
        · exact absurd h (by simp)
        · exact absurd h (by simp)
  · split at h
    next e' heq =>
      injection h with h'
      rcases FS.readFile_error heq with ⟨m, hm⟩ | ⟨m, hm⟩
      · exact Or.inl ⟨m, h' ▸ hm⟩
      · exact Or.inr (Or.inl ⟨m, h' ▸ hm⟩)
    next content heq =>
      split at h
      next m heq2 => injection h with h'; exact Or.inr (Or.inr ⟨m, h'.symm⟩)
      next nb heq2 => exact absurd h (by simp)

/-! ## String and path-name lemmas about `pySuffix`, `pyStem`, `withSuffix` -/

theorem string_data_append (a b : String) : (a ++ b).data = a.data ++ b.data := by
  cases a; cases b; rfl

theorem strExt {a b : String} (h : a.data = b.data) : a = b := by
  cases a; cases b; exact congrArg String.mk h

theorem ne_of_length_ne {α : Type} {l1 l2 : List α} (h : l1.length ≠ l2.length) :
    l1 ≠ l2 :=
  fun he => h (he ▸ rfl)

theorem rfindDot_get {s : List Char} {i : Nat} (h : rfindDot s = some i) :
    s.get? i = some '.' := by
  induction s generalizing i with
  | nil => simp [rfindDot] at h
  | cons c rest ih =>
    unfold rfindDot at h
    cases hr : rfindDot rest with
    | some j =>
      rw [hr] at h
      injection h with h'
      subst h'
      simpa using ih hr
    | none =>
      rw [hr] at h
      by_cases hc : c = '.'
      · rw [if_pos hc] at h
        injection h with h'
        subst h'
        simp [hc]
      · rw [if_neg hc] at h
        exact absurd h (by simp)

theorem rfindDot_lt {s : List Char} {i : Nat} (h : rfindDot s = some i) :
    i < s.length := by
  have := rfindDot_get h
  exact List.get?_eq_some.mp this |>.1

theorem rfindDot_append_of_some {y : List Char} {j : Nat} (hy : rfindDot y = some j)
    (x : List Char) : rfindDot (x ++ y) = some (x.length + j) := by
  induction x with
  | nil => simpa using hy
  | cons c rest ih =>
    rw [List.cons_append]
    unfold rfindDot
    rw [ih]
    simp
    omega

theorem pySuffix_eq_of_some {n : String} {i : Nat} (hr : rfindDot n.data = some i)
    (hc : 0 < i ∧ i + 1 < n.data.length) : (pySuffix n).data = n.data.drop i := by
  unfold pySuffix
  rw [hr]
  show (if 0 < i ∧ i + 1 < n.data.length then (⟨n.data.drop i⟩ : String) else "").data
    = n.data.drop i
  rw [if_pos hc]

theorem pySuffix_eq_empty_of_some {n : String} {i : Nat} (hr : rfindDot n.data = some i)
    (hc : ¬(0 < i ∧ i + 1 < n.data.length)) : pySuffix n = "" := by
  unfold pySuffix
  rw [hr]
  show (if 0 < i ∧ i + 1 < n.data.length then (⟨n.data.drop i⟩ : String) else "") = ""
  rw [if_neg hc]

theorem pySuffix_eq_empty_of_none {n : String} (hr : rfindDot n.data = none) :
    pySuffix n = "" := by
  unfold pySuffix
  rw [hr]

theorem pySuffix_cases (n : String) :
    (pySuffix n = "" ∧ pyStem n = n) ∨
    (∃ i, rfindDot n.data = some i ∧ 0 < i ∧ i + 1 < n.data.length ∧
      (pySuffix n).data = n.data.drop i ∧ (pyStem n).data = n.data.take i) := by
  cases hr : rfindDot n.data with
  | none =>
    left
    have h1 := pySuffix_eq_empty_of_none hr
    refine ⟨h1, ?_⟩
    apply strExt
    show n.data.take (n.data.length - (pySuffix n).data.length) = n.data
    rw [h1]
    simp
  | some i =>
    by_cases hc : 0 < i ∧ i + 1 < n.data.length
    · right
      have hs := pySuffix_eq_of_some hr hc
      refine ⟨i, rfl, hc.1, hc.2, hs, ?_⟩
      show n.data.take (n.data.length - (pySuffix n).data.length) = n.data.take i
      rw [hs]
      have hlt : i < n.data.length := rfindDot_lt hr
      have h2 : n.data.length - (n.data.drop i).length = i := by
        rw [List.length_drop]
        omega
      rw [h2]
    · left
      have h1 := pySuffix_eq_empty_of_some hr hc
      refine ⟨h1, ?_⟩
      apply strExt
      show n.data.take (n.data.length - (pySuffix n).data.length) = n.data
      rw [h1]
      simp

theorem pyStem_append_pySuffix (n : String) : pyStem n ++ pySuffix n = n := by
  rcases pySuffix_cases n with ⟨h1, h2⟩ | ⟨i, hr, h0, hlen, hsufd, hstemd⟩
  · rw [h1, h2]; apply strExt; simp [string_data_append]
  · apply strExt
    rw [string_data_append, hsufd, hstemd]
    exact List.take_append_drop i n.data

theorem pySuffix_head (n : String) :
    pySuffix n = "" ∨ ∃ t, (pySuffix n).data = '.' :: t := by
  rcases pySuffix_cases n with ⟨h1, _⟩ | ⟨i, hr, _, _, hsufd, _⟩
  · exact Or.inl h1
  · right
    have hg := rfindDot_get hr
    have hlt : i < n.data.length := rfindDot_lt hr
    refine ⟨n.data.drop (i + 1), ?_⟩
    rw [hsufd]
    rw [List.drop_eq_getElem_cons hlt]
    have hgi : n.data[i] = '.' := by
      rw [List.get?_eq_getElem?, List.getElem?_eq_getElem hlt] at hg
      injection hg
    rw [hgi]

theorem string_append_cancel_left {a b c : String} (h : a ++ b = a ++ c) : b = c := by
  apply strExt
  have hd : a.data ++ b.data = a.data ++ c.data := by
    rw [← string_data_append, ← string_data_append, h]
  exact List.append_cancel_left hd

theorem newName_ne {n s : String} (h : pySuffix n ≠ s) : pyStem n ++ s ≠ n := by
  intro he
  apply h
  have h2 : pyStem n ++ s = pyStem n ++ pySuffix n := by
    rw [he, pyStem_append_pySuffix]
  exact (string_append_cancel_left h2).symm

theorem singleton_append_inj {a : List String} {x y : String}
    (h : a ++ [x] = a ++ [y]) : x = y := by
  have h2 := List.append_cancel_left h
  injection h2

theorem pySuffix_ne_empty_of_ipynb {n : String}
    (h : strLower (pySuffix n) = ".ipynb") : pySuffix n ≠ "" := by
  intro he
  rw [he] at h
  exact absurd h (by decide)

theorem pySuffix_ne_html_of_ipynb {n : String}
    (h : strLower (pySuffix n) = ".ipynb") : pySuffix n ≠ ".html" := by
  intro he
  rw [he] at h
  exact absurd h (by decide)

theorem stem_files_ne (n : String) : pyStem n ++ "_files" ≠ n := by
  apply newName_ne
  intro he
  rcases pySuffix_head n with h1 | ⟨t, h2⟩
  · rw [h1] at he
    exact absurd he.symm (by decide)
  · rw [he] at h2
    simp at h2

theorem dropLast_append_lastName {p : FsPath} (h : p ≠ []) :
    p.dropLast ++ [lastName p] = p := by
  have h2 : lastName p = p.getLast h := by
    unfold lastName
    rw [List.getLast?_eq_getLast p h]
    rfl
  rw [h2]
  exact List.dropLast_append_getLast h

theorem withSuffix_ne_self {p : FsPath}
    (h : strLower (pySuffix (lastName p)) = ".ipynb") : withSuffix p ".html" ≠ p := by
  intro he
  by_cases hp : p = []
  · subst hp
    exact absurd h (by decide)
  · have hd := dropLast_append_lastName hp
    unfold withSuffix at he
    have he2 : p.dropLast ++ [pyStem (lastName p) ++ ".html"]
        = p.dropLast ++ [lastName p] := he.trans hd.symm
    exact newName_ne (pySuffix_ne_html_of_ipynb h) (singleton_append_inj he2)

theorem sidecarDir_ne_self {out : FsPath} (h : out ≠ []) : sidecarDir out ≠ out := by
  intro he
  have hd := dropLast_append_lastName h
  have he2 : out.dropLast ++ [pyStem (lastName out) ++ "_files"]
      = out.dropLast ++ [lastName out] := he.trans hd.symm
  exact stem_files_ne (lastName out) (singleton_append_inj he2)

theorem sidecarDir_length {out : FsPath} (h : out ≠ []) :
    (sidecarDir out).length = out.length := by
  unfold sidecarDir
  rw [List.length_append, List.length_dropLast]
  have := List.length_pos.mpr h
  simp
  omega

theorem sidecar_child_ne_out {out : FsPath} (h : out ≠ []) (n : String) :
    sidecarDir out ++ [n] ≠ out := by
  apply ne_of_length_ne
  rw [List.length_append, sidecarDir_length h]
  simp

theorem append_singleton_ne {α : Type} (l : List α) (x : α) : l ++ [x] ≠ l := by
  apply ne_of_length_ne
  simp

theorem dropLast_ne_self {p : FsPath} (h : p ≠ []) : p.dropLast ≠ p := by
  apply ne_of_length_ne
  rw [List.length_dropLast]
  have := List.length_pos.mpr h
  omega

/-! ## Success of the resource-writing loop -/

theorem writeResources_spec (sc : FsPath) (l : List (String × String)) (fs : FS)
    (hdir : fs.isDir sc = true)
    (hnd : ∀ n d, (n, d) ∈ l → fs.lookup (sc ++ [n]) ≠ some Entry.dir)
    (hnodup : (l.map Prod.fst).Nodup) :
    ∃ fs', writeResources fs sc l = (fs', Except.ok ()) ∧
      (∀ n d, (n, d) ∈ l → fs'.lookup (sc ++ [n]) = some (Entry.file d)) ∧
      (∀ q, (∀ n, n ∈ l.map Prod.fst → q ≠ sc ++ [n]) → fs'.lookup q = fs.lookup q) := by
  induction l generalizing fs with
  | nil => exact ⟨fs, rfl, by simp, fun q _ => rfl⟩
  | cons a rest ih =>
    obtain ⟨n, d⟩ := a
    rw [List.map_cons] at hnodup
    obtain ⟨hn_notin, hnodup'⟩ := List.nodup_cons.mp hnodup
    have hw : fs.writeFile (sc ++ [n]) d
        = Except.ok (fs.insert (sc ++ [n]) (Entry.file d)) := by
      apply FS.writeFile_ok
      · simp
      · rw [List.dropLast_concat]
        exact hdir
      · exact hnd n d (by simp)
    have hdir1 : (fs.insert (sc ++ [n]) (Entry.file d)).isDir sc = true := by
      rw [FS.isDir_congr sc
        (FS.lookup_insert_ne fs _ sc _ (fun he => append_singleton_ne sc n he.symm))]
      exact hdir
    have hnd1 : ∀ n' d', (n', d') ∈ rest →
        (fs.insert (sc ++ [n]) (Entry.file d)).lookup (sc ++ [n']) ≠ some Entry.dir := by
      intro n' d' hm
      by_cases he : sc ++ [n'] = sc ++ [n]
      · rw [he, FS.lookup_insert_self]
        simp
      · rw [FS.lookup_insert_ne fs _ _ _ he]
        exact hnd n' d' (List.mem_cons_of_mem _ hm)
    obtain ⟨fs', hrun, hres, hframe⟩ := ih (fs.insert (sc ++ [n]) (Entry.file d)) hdir1 hnd1 hnodup'
    refine ⟨fs', ?_, ?_, ?_⟩
    · unfold writeResources
      rw [hw]
      exact hrun
    · intro n' d' hm
      rcases List.mem_cons.mp hm with heq | hm'
      · injection heq with hn hd2
        subst hn
        subst hd2
        rw [hframe (sc ++ [n']) ?_]
        · exact FS.lookup_insert_self _ _ _
        · intro n'' hn'' he
          exact hn_notin ((singleton_append_inj he) ▸ hn'')
      · exact hres n' d' hm'
    · intro q hq
      rw [hframe q (fun n'' hn'' => hq n'' (by simp [hn'']))]
      exact FS.lookup_insert_ne fs _ _ _ (hq n (by simp))

theorem FS.isDir_of_lookup_dir {fs : FS} {q : FsPath}
    (h : fs.lookup q = some Entry.dir) : fs.isDir q = true := by
  simp [FS.isDir, h]

/-! ## Success characterization of `convert_single_file` -/

theorem convert_single_ok {Nb : Type} {cv : Converter Nb} {fs : FS}
    {input out : FsPath} {nb : Nb} {body : String} {res : List (String × String)}
    (out? : Option FsPath)
    (hout : out?.getD (withSuffix input ".html") = out)
    (hex : fs.pathExists input = true)
    (hsuf : strLower (pySuffix (lastName input)) = ".ipynb")
    (hload : loadNotebook cv fs input = Except.ok nb)
    (hexp : cv.from_notebook_node nb = (body, res))
    (hone : out ≠ [])
    (hpdir : fs.isDir out.dropLast = true)
    (hnotd : fs.lookup out ≠ some Entry.dir)
    (hscfile : ∀ c, fs.lookup (sidecarDir out) ≠ some (Entry.file c))
    (hresnd : ∀ n d, (n, d) ∈ res → fs.lookup (sidecarDir out ++ [n]) ≠ some Entry.dir)
    (hnodup : (res.map Prod.fst).Nodup) :
    ∃ fs', convert_single_file cv fs input out? = (fs', Except.ok out) ∧
      fs'.lookup out = some (Entry.file (cv.enhance_html_output body)) ∧
      (∀ n d, (n, d) ∈ res → fs'.lookup (sidecarDir out ++ [n]) = some (Entry.file d)) ∧
      (res ≠ [] → fs'.isDir (sidecarDir out) = true) ∧
      (∀ q, q ≠ out → q ≠ sidecarDir out → (∀ n, q ≠ sidecarDir out ++ [n]) →
        fs'.lookup q = fs.lookup q) ∧
      (res = [] → ∀ q, q ≠ out → fs'.lookup q = fs.lookup q) := by
  have hwrap : convert_single_file cv fs input out? = convertBody cv fs input out := by
    unfold convert_single_file
    rw [hex, hout]
    simp only [Bool.not_true, Bool.false_eq_true, if_false]
    rw [if_neg (fun hc => hc hsuf)]
  have hw : fs.writeFile out (cv.enhance_html_output body)
      = Except.ok (fs.insert out (Entry.file (cv.enhance_html_output body))) :=
    FS.writeFile_ok fs out _ hone hpdir hnotd
  by_cases hres : res = []
  · subst hres
    refine ⟨fs.insert out (Entry.file (cv.enhance_html_output body)), ?_, ?_, by simp, by simp,
      ?_, ?_⟩
    · rw [hwrap]
      simp [convertBody, hload, hexp, hw]
    · exact FS.lookup_insert_self _ _ _
    · intro q hq _ _
      exact FS.lookup_insert_ne _ _ _ _ hq
    · intro _ q hq
      exact FS.lookup_insert_ne _ _ _ _ hq
  · -- resources present: the side-car directory is created and filled
    have hscne : sidecarDir out ≠ [] := by simp [sidecarDir]
    have hpar1 : (fs.insert out (Entry.file (cv.enhance_html_output body))).isDir
        (sidecarDir out).dropLast = true := by
      unfold sidecarDir
      rw [List.dropLast_concat]
      rw [FS.isDir_congr _ (FS.lookup_insert_ne _ _ _ _ (dropLast_ne_self hone))]
      exact hpdir
    have hnf1 : ∀ c, (fs.insert out (Entry.file (cv.enhance_html_output body))).lookup
        (sidecarDir out) ≠ some (Entry.file c) := by
      intro c
      rw [FS.lookup_insert_ne _ _ _ _ (sidecarDir_ne_self hone)]
      exact hscfile c
    rcases FS.mkdir_ok_cases _ (sidecarDir out) hscne hpar1 hnf1 with ⟨hlk, hmk⟩ | ⟨hlk, hmk⟩
    · -- side-car directory already existed
      have hsc2 : (fs.insert out (Entry.file (cv.enhance_html_output body))).lookup
          (sidecarDir out) = some Entry.dir := hlk
      have hout2 : (fs.insert out (Entry.file (cv.enhance_html_output body))).lookup out
          = some (Entry.file (cv.enhance_html_output body)) := FS.lookup_insert_self _ _ _
      have hframe2 : ∀ q, q ≠ out →
          (fs.insert out (Entry.file (cv.enhance_html_output body))).lookup q
            = fs.lookup q := fun q hq => FS.lookup_insert_ne _ _ _ _ hq
      have hnd2 : ∀ n d, (n, d) ∈ res →
          (fs.insert out (Entry.file (cv.enhance_html_output body))).lookup
            (sidecarDir out ++ [n]) ≠ some Entry.dir := by
        intro n d hm
        rw [hframe2 _ (sidecar_child_ne_out hone n)]
        exact hresnd n d hm
      obtain ⟨fs3, hwr, hres3, hframe3⟩ :=
        writeResources_spec (sidecarDir out) res _ (FS.isDir_of_lookup_dir hsc2) hnd2 hnodup
      refine ⟨fs3, ?_, ?_, hres3, ?_, ?_, fun hres0 => absurd hres0 hres⟩
      · rw [hwrap]
        have hempty : res.isEmpty = false := by simp [hres]
        simp [convertBody, hload, hexp, hw, hempty, hmk, hwr]
      · rw [hframe3 out (fun n _ he => sidecar_child_ne_out hone n he.symm)]
        exact hout2
      · intro _
        apply FS.isDir_of_lookup_dir
        rw [hframe3 (sidecarDir out) (fun n _ he => append_singleton_ne _ n he.symm)]
        exact hsc2
      · intro q hq1 _ hq3
        rw [hframe3 q (fun n _ => hq3 n)]
        exact hframe2 q hq1
    · -- side-car directory newly created
      have hout2 : ((fs.insert out (Entry.file (cv.enhance_html_output body))).insert
          (sidecarDir out) Entry.dir).lookup out
          = some (Entry.file (cv.enhance_html_output body)) := by
        rw [FS.lookup_insert_ne _ _ _ _ (fun he => sidecarDir_ne_self hone he.symm)]
        exact FS.lookup_insert_self _ _ _
      have hsc2 : ((fs.insert out (Entry.file (cv.enhance_html_output body))).insert
          (sidecarDir out) Entry.dir).lookup (sidecarDir out) = some Entry.dir :=
        FS.lookup_insert_self _ _ _
      have hframe2 : ∀ q, q ≠ out → q ≠ sidecarDir out →
          ((fs.insert out (Entry.file (cv.enhance_html_output body))).insert
            (sidecarDir out) Entry.dir).lookup q = fs.lookup q := by
        intro q hq1 hq2
        rw [FS.lookup_insert_ne _ _ _ _ hq2]
        exact FS.lookup_insert_ne _ _ _ _ hq1
      have hnd2 : ∀ n d, (n, d) ∈ res →
          ((fs.insert out (Entry.file (cv.enhance_html_output body))).insert
            (sidecarDir out) Entry.dir).lookup (sidecarDir out ++ [n])
            ≠ some Entry.dir := by
        intro n d hm
        rw [hframe2 _ (sidecar_child_ne_out hone n)
          (fun he => append_singleton_ne _ n he)]
        exact hresnd n d hm
      obtain ⟨fs3, hwr, hres3, hframe3⟩ :=
        writeResources_spec (sidecarDir out) res _ (FS.isDir_of_lookup_dir hsc2) hnd2 hnodup
      refine ⟨fs3, ?_, ?_, hres3, ?_, ?_, fun hres0 => absurd hres0 hres⟩
      · rw [hwrap]
        have hempty : res.isEmpty = false := by simp [hres]
        simp [convertBody, hload, hexp, hw, hempty, hmk, hwr]
      · rw [hframe3 out (fun n _ he => sidecar_child_ne_out hone n he.symm)]
        exact hout2
      · intro _
        apply FS.isDir_of_lookup_dir
        rw [hframe3 (sidecarDir out) (fun n _ he => append_singleton_ne _ n he.symm)]
        exact hsc2
      · intro q hq1 hq2 hq3
        rw [hframe3 q (fun n _ => hq3 n)]
        exact hframe2 q hq1 hq2

/-! ## Claim C1 and C10: precondition checks of `convert_single_file` -/

/-- C1: for every input path given to `convert_single_file`, if the path
does not exist the call fails with `FileNotFoundError` (the spec's
`NotFoundError`), and if it exists but its extension is not `.ipynb`
(case-insensitively) the call fails with `ValueError` (the spec's
`InvalidFormatError`); in either case the filesystem is returned
unchanged, so no output file is written. -/
theorem c1_single_precondition_errors {Nb : Type} (cv : Converter Nb) (fs : FS)
    (input : FsPath) (out? : Option FsPath) :
    (fs.pathExists input = false →
      ∃ m, convert_single_file cv fs input out? = (fs, Except.error (Err.fileNotFound m))) ∧
    (fs.pathExists input = true → strLower (pySuffix (lastName input)) ≠ ".ipynb" →
      ∃ m, convert_single_file cv fs input out? = (fs, Except.error (Err.invalidFormat m))) := by
  constructor
  · intro h
    refine ⟨"Input file not found: " ++ input.render, ?_⟩
    unfold convert_single_file
    rw [h]
    simp
  · intro h1 h2
    refine ⟨"Input file must be a .ipynb file: " ++ input.render, ?_⟩
    unfold convert_single_file
    rw [h1]
    simp only [Bool.not_true, Bool.false_eq_true, if_false]
    rw [if_pos h2]

/-- C10: the extension check is case-insensitive: when the input exists
and its extension lower-cases to `.ipynb`, the call never fails with the
wrong-extension `ValueError`, whatever else happens downstream. -/
theorem c10_extension_check_case_insensitive {Nb : Type} (cv : Converter Nb) (fs : FS)
    (input : FsPath) (out? : Option FsPath)
    (hex : fs.pathExists input = true)
    (hsuf : strLower (pySuffix (lastName input)) = ".ipynb") :
    ∀ m, (convert_single_file cv fs input out?).2 ≠ Except.error (Err.invalidFormat m) := by
  intro m h
  unfold convert_single_file at h
  rw [hex] at h
  simp only [Bool.not_true, Bool.false_eq_true, if_false] at h
  rw [if_neg (fun hc => hc hsuf)] at h
  unfold convertBody at h
  split at h
  next e heq =>
    have h2 : e = Err.invalidFormat m := by simpa using h
    subst h2
    rcases loadNotebook_error heq with ⟨m2, hm⟩ | ⟨m2, hm⟩ | ⟨m2, hm⟩ <;>
      exact absurd hm (by simp)
  next notebook heq =>
    split at h
    next e heq2 =>
      have h2 : e = Err.invalidFormat m := by simpa using h
      subst h2
      rcases FS.writeFile_error heq2 with ⟨m2, hm⟩ | ⟨m2, hm⟩ | ⟨m2, hm⟩ <;>
        exact absurd hm (by simp)
    next fs1 heq2 =>
      split at h
      · simp at h
      · split at h
        next e heq3 =>
          have h2 : e = Err.invalidFormat m := by simpa using h
          subst h2
          rcases FS.mkdir_error heq3 with ⟨m2, hm⟩ | ⟨m2, hm⟩ <;>
            exact absurd hm (by simp)
        next fs2 heq3 =>
          split at h
          next fs3 e heq4 =>
            have h2 : e = Err.invalidFormat m := by simpa using h
            subst h2
            rcases writeResources_error heq4 with ⟨m2, hm⟩ | ⟨m2, hm⟩ | ⟨m2, hm⟩ <;>
              exact absurd hm (by simp)
          next fs3 u heq4 => simp at h

/-! ## Batch conversion: shared success-shape helper, claims C2 and C7 -/

theorem convertDirectoryBody_returns_ok {Nb : Type} (cv : Converter Nb) (fs : FS)
    (input_dir output_dir : FsPath) (recursive : Bool) :
    ∃ fs' results, convertDirectoryBody cv fs input_dir output_dir recursive
      = (fs', Except.ok results) := by
  unfold convertDirectoryBody
  repeat' split
  all_goals exact ⟨_, _, rfl⟩

theorem convert_directory_returns_ok_of_none {Nb : Type} (cv : Converter Nb) (fs : FS)
    (input_dir : FsPath) (recursive : Bool)
    (h1 : fs.pathExists input_dir = true) (h2 : fs.isDir input_dir = true) :
    ∃ fs' results, convert_directory cv fs input_dir none recursive
      = (fs', Except.ok results) := by
  unfold convert_directory
  rw [h1, h2]
  simp only [Bool.not_true, Bool.or_self, Bool.false_eq_true, if_false]
  exact convertDirectoryBody_returns_ok cv fs input_dir input_dir recursive

theorem convert_directory_returns_ok_of_mkdir {Nb : Type} (cv : Converter Nb) (fs : FS)
    (input_dir d : FsPath) (recursive : Bool)
    (h1 : fs.pathExists input_dir = true) (h2 : fs.isDir input_dir = true)
    (hmk : (fs.mkdirParents d).2 = Except.ok ()) :
    ∃ fs' results, convert_directory cv fs input_dir (some d) recursive
      = (fs', Except.ok results) := by
  unfold convert_directory
  rw [h1, h2]
  simp only [Bool.not_true, Bool.or_self, Bool.false_eq_true, if_false]
  rcases hm : fs.mkdirParents d with ⟨fs1, r⟩
  rw [hm] at hmk
  simp only at hmk
  subst hmk
  exact convertDirectoryBody_returns_ok cv fs1 input_dir d recursive

/-- C2: per-file failures in batch conversion are caught, logged and
skipped: over any enumerated file list, every file contributes exactly one
of a converted result or a logged failure (so N convertible notebooks and
K failing ones yield exactly N results and K log entries), and for every
valid root directory the batch run itself — with no requested output
directory, or one whose creation (line 227) succeeds — returns a result
list and never raises for an individual file. -/
theorem c2_batch_best_effort {Nb : Type} (cv : Converter Nb) (fs : FS)
    (input_dir : FsPath) (output_dir? : Option FsPath) (recursive : Bool)
    (h1 : fs.pathExists input_dir = true) (h2 : fs.isDir input_dir = true) :
    (output_dir? = none →
      ∃ fs' results, convert_directory cv fs input_dir output_dir? recursive
        = (fs', Except.ok results)) ∧
    (∀ d, output_dir? = some d → (fs.mkdirParents d).2 = Except.ok () →
      ∃ fs' results, convert_directory cv fs input_dir output_dir? recursive
        = (fs', Except.ok results)) ∧
    (∀ (files : List FsPath) (fs0 : FS) (outdir : FsPath),
       (convertLoop cv input_dir outdir files fs0).2.1.length
         + (convertLoop cv input_dir outdir files fs0).2.2.length = files.length) := by
  refine ⟨?_, ?_, ?_⟩
  · intro hnone
    subst hnone
    exact convert_directory_returns_ok_of_none cv fs input_dir recursive h1 h2
  · intro d hd hmk
    subst hd
    exact convert_directory_returns_ok_of_mkdir cv fs input_dir d recursive h1 h2 hmk
  · intro files
    induction files with
    | nil => intro fs0 outdir; rfl
    | cons f rest ih =>
      intro fs0 outdir
      unfold convertLoop
      split
      next fs1 e heq =>
        have hih := ih fs1 outdir
        rcases hr : convertLoop cv input_dir outdir rest fs1 with ⟨fsr, conv, fail⟩
        rw [hr] at hih
        simp at hih ⊢
        omega
      next fs1 u heq =>
        split
        next fs2 p heq2 =>
          have hih := ih fs2 outdir
          rcases hr : convertLoop cv input_dir outdir rest fs2 with ⟨fsr, conv, fail⟩
          rw [hr] at hih
          simp at hih ⊢
          omega
        next fs2 e heq2 =>
          have hih := ih fs2 outdir
          rcases hr : convertLoop cv input_dir outdir rest fs2 with ⟨fsr, conv, fail⟩
          rw [hr] at hih
          simp at hih ⊢
          omega

/-- C7 (amended): `convert_batch` fails with `NotADirectoryError` and
performs no filesystem writes when `input_dir` is not an existing
directory.  For a valid root, per-file errors never abort the call; the
only other failure is creating an explicitly requested output directory
(`mkdir(parents=True, exist_ok=True)` at line 227, outside any `try`),
whose error — `NotADirectoryError` when `output_dir` lies under a regular
file, `FileExistsError` when it is itself a regular file — propagates
verbatim.  With no output directory requested, or one whose creation
succeeds, the call always returns a result list. -/
theorem c7_batch_root_check {Nb : Type} (cv : Converter Nb) (fs : FS)
    (input_dir : FsPath) (output_dir? : Option FsPath) (recursive : Bool) :
    (¬(fs.pathExists input_dir = true ∧ fs.isDir input_dir = true) →
      ∃ m, convert_directory cv fs input_dir output_dir? recursive
        = (fs, Except.error (Err.notADirectory m))) ∧
    ((fs.pathExists input_dir = true ∧ fs.isDir input_dir = true) →
      output_dir? = none →
      ∃ fs' results, convert_directory cv fs input_dir output_dir? recursive
        = (fs', Except.ok results)) ∧
    ((fs.pathExists input_dir = true ∧ fs.isDir input_dir = true) →
      ∀ d, output_dir? = some d → (fs.mkdirParents d).2 = Except.ok () →
      ∃ fs' results, convert_directory cv fs input_dir output_dir? recursive
        = (fs', Except.ok results)) ∧
    ((fs.pathExists input_dir = true ∧ fs.isDir input_dir = true) →
      ∀ d e, output_dir? = some d → (fs.mkdirParents d).2 = Except.error e →
      convert_directory cv fs input_dir output_dir? recursive
        = ((fs.mkdirParents d).1, Except.error e)) := by
  refine ⟨?_, ?_, ?_, ?_⟩
  · intro h
    refine ⟨"Input directory not found: " ++ input_dir.render, ?_⟩
    unfold convert_directory
    have hc : (!(fs.pathExists input_dir) || !(fs.isDir input_dir)) = true := by
      cases hpe : fs.pathExists input_dir <;> cases hid : fs.isDir input_dir <;>
        simp_all
    rw [hc]
    simp
  · intro h hnone
    subst hnone
    exact convert_directory_returns_ok_of_none cv fs input_dir recursive h.1 h.2
  · intro h d hd hmk
    subst hd
    exact convert_directory_returns_ok_of_mkdir cv fs input_dir d recursive h.1 h.2 hmk
  · intro h d e hd hmk
    subst hd
    unfold convert_directory
    rw [h.1, h.2]
    simp only [Bool.not_true, Bool.or_self, Bool.false_eq_true, if_false]
    rcases hm : fs.mkdirParents d with ⟨fs1, r⟩
    rw [hm] at hmk
    simp only at hmk
    subst hmk
    rfl

/-! ## Glob-pattern characterization -/

theorem isPrefixOfB_iff (l1 : FsPath) : ∀ l2, isPrefixOfB l1 l2 = true ↔ ∃ t, l2 = l1 ++ t := by
  induction l1 with
  | nil => intro l2; simp [isPrefixOfB]
  | cons a l1 ih =>
    intro l2
    cases l2 with
    | nil =>
      simp only [isPrefixOfB]
      constructor
      · intro h; exact absurd h (by simp)
      · rintro ⟨t, ht⟩; exact absurd ht (by simp)
    | cons b l2 =>
      simp only [isPrefixOfB]
      by_cases hab : a = b
      · subst hab
        rw [if_pos rfl, ih l2]
        constructor
        · rintro ⟨t, rfl⟩; exact ⟨t, rfl⟩
        · rintro ⟨t, ht⟩
          injection ht with h1 h2
          exact ⟨t, h2⟩
      · rw [if_neg hab]
        constructor
        · intro h; exact absurd h (by simp)
        · rintro ⟨t, ht⟩
          injection ht with h1 h2
          exact absurd h1.symm hab

theorem anySuffix_iff {α : Type} (f : List α → Bool) (s : List α) :
    anySuffix f s = true ↔ ∃ t, t <:+ s ∧ f t = true := by
  induction s with
  | nil =>
    simp only [anySuffix]
    constructor
    · intro h; exact ⟨[], List.suffix_refl [], h⟩
    · rintro ⟨t, ht, hf⟩
      rw [List.suffix_nil.mp ht] at hf
      exact hf
  | cons c s ih =>
    simp only [anySuffix, Bool.or_eq_true, ih]
    constructor
    · rintro (h | ⟨t, ht, hf⟩)
      · exact ⟨c :: s, List.suffix_refl _, h⟩
      · exact ⟨t, ht.trans (List.suffix_cons c s), hf⟩
    · rintro ⟨t, ht, hf⟩
      rcases List.suffix_cons_iff.mp ht with rfl | ht'
      · exact Or.inl hf
      · exact Or.inr ⟨t, ht', hf⟩

theorem fnMatch_literal {lit : List Char} (h : '*' ∉ lit) :
    ∀ s, fnMatch lit s = true ↔ s = lit := by
  induction lit with
  | nil => intro s; cases s <;> simp [fnMatch]
  | cons p ps ih =>
    intro s
    have hp : ¬(p = '*') := fun he => h (he ▸ List.mem_cons_self p ps)
    have hps : '*' ∉ ps := fun hm => h (List.mem_cons_of_mem _ hm)
    simp only [fnMatch, if_neg hp]
    cases s with
    | nil => simp
    | cons c s' =>
      rw [Bool.and_eq_true]
      rw [ih hps s']
      constructor
      · rintro ⟨h1, rfl⟩
        have hpc : p = c := by simpa using h1
        rw [hpc]
      · intro he
        injection he with h1 h2
        exact ⟨by simp [h1], h2⟩

theorem fnMatch_star_suffix {lit : List Char} (h : '*' ∉ lit) (s : List Char) :
    fnMatch ('*' :: lit) s = true ↔ lit <:+ s := by
  have hstar : fnMatch ('*' :: lit) s = anySuffix (fnMatch lit) s := by
    simp [fnMatch]
  rw [hstar, anySuffix_iff]
  constructor
  · rintro ⟨t, ht, hf⟩
    rw [(fnMatch_literal h t).mp hf] at ht
    exact ht
  · intro hs
    exact ⟨lit, hs, (fnMatch_literal h lit).mpr rfl⟩

theorem globMatch_single {p : String} (hp : ¬(p = "**")) (comps : List String) :
    globMatch [p] comps = true ↔ ∃ c, comps = [c] ∧ fnMatch p.data c.data = true := by
  simp only [globMatch, if_neg hp]
  cases comps with
  | nil => simp
  | cons c cs =>
    rw [Bool.and_eq_true]
    constructor
    · rintro ⟨h1, h2⟩
      have : cs = [] := by
        cases cs with
        | nil => rfl
        | cons c2 cs2 => simp [globMatch] at h2
      subst this
      exact ⟨c, rfl, h1⟩
    · rintro ⟨c', hc, hf⟩
      injection hc with h1 h2
      subst h1
      subst h2
      exact ⟨hf, by simp [globMatch]⟩

theorem globMatch_recursive {p : String} (hp : ¬(p = "**")) (comps : List String) :
    globMatch ["**", p] comps = true ↔
      ∃ pre c, comps = pre ++ [c] ∧ fnMatch p.data c.data = true := by
  have hstar : globMatch ["**", p] comps = anySuffix (globMatch [p]) comps := by
    simp [globMatch]
  rw [hstar, anySuffix_iff]
  constructor
  · rintro ⟨t, ht, hm⟩
    obtain ⟨c, rfl, hf⟩ := (globMatch_single hp t).mp hm
    obtain ⟨pre, hpre⟩ := ht
    exact ⟨pre, c, hpre.symm, hf⟩
  · rintro ⟨pre, c, rfl, hf⟩
    exact ⟨[c], ⟨pre, rfl⟩, (globMatch_single hp [c]).mpr ⟨c, rfl, hf⟩⟩

theorem mem_glob {fs : FS} {dir p : FsPath} {pat : List String} :
    p ∈ fs.glob dir pat ↔ ∃ e, (p, e) ∈ fs.entries ∧ isPrefixOfB dir p = true ∧
      globMatch pat (p.drop dir.length) = true := by
  unfold FS.glob
  rw [List.mem_filterMap]
  constructor
  · rintro ⟨⟨q, e⟩, hm, hf⟩
    by_cases hc : (isPrefixOfB dir q && globMatch pat (q.drop dir.length)) = true
    · rw [if_pos hc] at hf
      injection hf with hf
      subst hf
      rw [Bool.and_eq_true] at hc
      obtain ⟨hc1, hc2⟩ := hc
      exact ⟨e, hm, hc1, hc2⟩
    · rw [if_neg hc] at hf
      cases hf
  · rintro ⟨e, hm, h1, h2⟩
    refine ⟨(p, e), hm, ?_⟩
    rw [if_pos (by rw [h1, h2]; rfl)]

/-! ## `mkdirParents` creates every missing ancestor directory -/

theorem mkdirParentsGo_preserve (rest : FsPath) :
    ∀ (fs : FS) (done q : FsPath), q.length ≤ done.length →
      (mkdirParentsGo fs done rest).1.lookup q = fs.lookup q := by
  induction rest with
  | nil => intro fs done q _; rfl
  | cons c rest ih =>
    intro fs done q hlen
    unfold mkdirParentsGo
    cases hl : fs.lookup (done ++ [c]) with
    | none =>
      show (mkdirParentsGo (fs.insert (done ++ [c]) Entry.dir) (done ++ [c]) rest).1.lookup q
        = fs.lookup q
      rw [ih _ (done ++ [c]) q (by simp; omega)]
      exact FS.lookup_insert_ne _ _ _ _ (ne_of_length_ne (by simp; omega))
    | some e =>
      cases e with
      | dir =>
        show (mkdirParentsGo fs (done ++ [c]) rest).1.lookup q = fs.lookup q
        exact ih _ (done ++ [c]) q (by simp; omega)
      | file d => rfl

theorem mkdirParentsGo_isDir (rest : FsPath) :
    ∀ (fs : FS) (done pre : FsPath),
      (∀ pre' c, pre' <+: rest → fs.lookup (done ++ pre') ≠ some (Entry.file c)) →
      pre <+: rest → pre ≠ [] →
      (mkdirParentsGo fs done rest).1.isDir (done ++ pre) = true := by
  induction rest with
  | nil =>
    intro fs done pre hnf hpre hne
    exact absurd (List.prefix_nil.mp hpre) hne
  | cons c rest ih =>
    intro fs done pre hnf hpre hne
    cases pre with
    | nil => exact absurd rfl hne
    | cons p0 pre' =>
      obtain ⟨hp0, hpre'⟩ := List.cons_prefix_cons.mp hpre
      subst hp0
      have key : ∀ (fs' : FS),
          fs'.lookup (done ++ [p0]) = some Entry.dir →
          (∀ pre2 : FsPath, pre2 ≠ [] →
            fs'.lookup ((done ++ [p0]) ++ pre2) = fs.lookup (done ++ (p0 :: pre2))) →
          (mkdirParentsGo fs' (done ++ [p0]) rest).1.isDir (done ++ (p0 :: pre'))
            = true := by
        intro fs' hq0 htrans
        cases pre' with
        | nil =>
          apply FS.isDir_of_lookup_dir
          have hpres := mkdirParentsGo_preserve rest fs' (done ++ [p0]) (done ++ [p0]) le_rfl
          rw [hpres]
          exact hq0
        | cons p1 pre'' =>
          rw [show done ++ (p0 :: p1 :: pre'') = (done ++ [p0]) ++ (p1 :: pre'') from by simp]
          apply ih
          · intro pre2 c2 hp2
            by_cases hz : pre2 = []
            · subst hz
              rw [List.append_nil, hq0]
              simp
            · rw [htrans pre2 hz]
              exact hnf (p0 :: pre2) c2 (List.cons_prefix_cons.mpr ⟨rfl, hp2⟩)
          · exact hpre'
          · simp
      unfold mkdirParentsGo
      cases hl : fs.lookup (done ++ [p0]) with
      | some e =>
        cases e with
        | file d => exact absurd hl (hnf [p0] d ⟨rest, rfl⟩)
        | dir =>
          exact key fs hl (fun pre2 _ => by
            rw [show (done ++ [p0]) ++ pre2 = done ++ (p0 :: pre2) from by simp])
      | none =>
        refine key (fs.insert (done ++ [p0]) Entry.dir) (FS.lookup_insert_self _ _ _) ?_
        intro pre2 hz
        rw [FS.lookup_insert_ne _ _ _ _ (ne_of_length_ne (by
          simp only [List.length_append, List.length_cons, List.length_nil]
          have := List.length_pos.mpr hz
          omega))]
        rw [show (done ++ [p0]) ++ pre2 = done ++ (p0 :: pre2) from by simp]

theorem FS.mkdirParents_isDir (fs : FS) (target q : FsPath)
    (hnf : ∀ r c, r <+: target → fs.lookup r ≠ some (Entry.file c))
    (hq : q <+: target) (hne : q ≠ []) :
    (fs.mkdirParents target).1.isDir q = true := by
  have h := mkdirParentsGo_isDir target fs [] q
    (fun pre' c hp' => by simpa using hnf pre' c hp') hq hne
  simpa using h

/-- A successful `convert_single_file` with an explicit output path returns
exactly that path. -/
theorem convert_single_file_ok_value {Nb : Type} {cv : Converter Nb} {fs fs' : FS}
    {input o v : FsPath}
    (h : convert_single_file cv fs input (some o) = (fs', Except.ok v)) : v = o := by
  unfold convert_single_file at h
  split at h
  · simp at h
  · split at h
    · simp at h
    · unfold convertBody at h
      split at h
      · simp at h
      · split at h
        · simp at h
        · split at h
          · simp at h
            exact h.2.symm
          · split at h
            · simp at h
            · split at h
              · simp at h
              · simp at h
                exact h.2.symm

/-- Every path in the converted-results list of the batch loop is the
output-path formula applied to some enumerated file: the file's path
relative to `input_dir`, re-rooted under `output_dir`, with the extension
replaced by `.html`. -/
theorem convertLoop_outputs {Nb : Type} (cv : Converter Nb) (input_dir output_dir : FsPath) :
    ∀ (files : List FsPath) (fs : FS) (r : FsPath),
      r ∈ (convertLoop cv input_dir output_dir files fs).2.1 →
      ∃ f, f ∈ files ∧ r = output_dir ++ withSuffix (f.drop input_dir.length) ".html" := by
  intro files
  induction files with
  | nil => intro fs r h; simp [convertLoop] at h
  | cons f rest ih =>
    intro fs r h
    unfold convertLoop at h
    split at h
    next fs1 e heq =>
      rcases hr : convertLoop cv input_dir output_dir rest fs1 with ⟨fsr, conv, fail⟩
      rw [hr] at h
      simp only at h
      obtain ⟨f', hf', hrr⟩ := ih fs1 r (by rw [hr]; exact h)
      exact ⟨f', by simp [hf'], hrr⟩
    next fs1 u heq =>
      split at h
      next fs2 p heq2 =>
        rcases hr : convertLoop cv input_dir output_dir rest fs2 with ⟨fsr, conv, fail⟩
        rw [hr] at h
        simp only at h
        rcases List.mem_cons.mp h with rfl | hm
        · exact ⟨f, by simp, convert_single_file_ok_value heq2⟩
        · obtain ⟨f', hf', hrr⟩ := ih fs2 r (by rw [hr]; exact hm)
          exact ⟨f', by simp [hf'], hrr⟩
      next fs2 e heq2 =>
        rcases hr : convertLoop cv input_dir output_dir rest fs2 with ⟨fsr, conv, fail⟩
        rw [hr] at h
        simp only at h
        obtain ⟨f', hf', hrr⟩ := ih fs2 r (by rw [hr]; exact h)
        exact ⟨f', by simp [hf'], hrr⟩

/-- C8: batch enumeration and output layout.  (a) With the non-recursive
pattern, a path is enumerated iff it is a recorded entry that is a direct
child of `input_dir` whose name ends in `.ipynb`; (b) with the recursive
pattern, iff it is a recorded entry anywhere strictly below `input_dir`
whose name ends in `.ipynb` — so enumeration descends into subdirectories
exactly when the recursive flag is set; (c) every returned result is the
enumerated file's path relative to `input_dir`, re-rooted under
`output_dir`, with the extension replaced by `.html`; (d) `mkdirParents`
(run on the output file's parent before each conversion) makes every
missing intermediate directory of its argument a directory. -/
theorem c8_batch_output_layout {Nb : Type} (cv : Converter Nb) (fs fs0 : FS)
    (input_dir output_dir : FsPath) (files : List FsPath) (p : FsPath) :
    (p ∈ fs.glob input_dir (splitPattern "*.ipynb") ↔
      ∃ e n, (p, e) ∈ fs.entries ∧ p = input_dir ++ [n] ∧ ".ipynb".data <:+ n.data) ∧
    (p ∈ fs.glob input_dir (splitPattern "**/*.ipynb") ↔
      ∃ e pre n, (p, e) ∈ fs.entries ∧ p = input_dir ++ pre ++ [n] ∧
        ".ipynb".data <:+ n.data) ∧
    (∀ r, r ∈ (convertLoop cv input_dir output_dir files fs0).2.1 →
      ∃ f, f ∈ files ∧ r = output_dir ++ withSuffix (f.drop input_dir.length) ".html") ∧
    (∀ target q, (∀ r c, r <+: target → fs0.lookup r ≠ some (Entry.file c)) →
      q <+: target → q ≠ [] → (fs0.mkdirParents target).1.isDir q = true) := by
  refine ⟨?_, ?_, convertLoop_outputs cv input_dir output_dir files fs0,
    fun target q hnf hq hne => FS.mkdirParents_isDir fs0 target q hnf hq hne⟩
  · rw [show splitPattern "*.ipynb" = ["*.ipynb"] from rfl, mem_glob]
    constructor
    · rintro ⟨e, hm, h1, h2⟩
      obtain ⟨t, rfl⟩ := (isPrefixOfB_iff input_dir p).mp h1
      rw [List.drop_left] at h2
      obtain ⟨c, rfl, hf⟩ := (globMatch_single (by decide) t).mp h2
      exact ⟨e, c, hm, rfl, (fnMatch_star_suffix (by decide) c.data).mp hf⟩
    · rintro ⟨e, n, hm, rfl, hs⟩
      refine ⟨e, hm, (isPrefixOfB_iff input_dir _).mpr ⟨[n], rfl⟩, ?_⟩
      rw [List.drop_left]
      exact (globMatch_single (by decide) [n]).mpr
        ⟨n, rfl, (fnMatch_star_suffix (by decide) n.data).mpr hs⟩
  · rw [show splitPattern "**/*.ipynb" = ["**", "*.ipynb"] from rfl, mem_glob]
    constructor
    · rintro ⟨e, hm, h1, h2⟩
      obtain ⟨t, rfl⟩ := (isPrefixOfB_iff input_dir p).mp h1
      rw [List.drop_left] at h2
      obtain ⟨pre, c, rfl, hf⟩ := (globMatch_recursive (by decide) t).mp h2
      refine ⟨e, pre, c, hm, ?_, (fnMatch_star_suffix (by decide) c.data).mp hf⟩
      rw [List.append_assoc]
    · rintro ⟨e, pre, n, hm, hp, hs⟩
      rw [List.append_assoc] at hp
      subst hp
      refine ⟨e, hm, (isPrefixOfB_iff input_dir _).mpr ⟨pre ++ [n], rfl⟩, ?_⟩
      rw [List.drop_left]
      exact (globMatch_recursive (by decide) _).mpr
        ⟨pre, n, rfl, (fnMatch_star_suffix (by decide) n.data).mpr hs⟩

/-! ## Name algebra needed for the idempotence claim -/

theorem pyStem_data_ne_empty_of_ipynb {n : String}
    (h : strLower (pySuffix n) = ".ipynb") : (pyStem n).data ≠ [] := by
  rcases pySuffix_cases n with ⟨h1, _⟩ | ⟨i, hr, h0, hlen, hsufd, hstemd⟩
  · exact absurd h1 (pySuffix_ne_empty_of_ipynb h)
  · rw [hstemd]
    have hlt : i < n.data.length := rfindDot_lt hr
    intro he
    have h2 := congrArg List.length he
    rw [List.length_take] at h2
    simp only [List.length_nil] at h2
    omega

theorem pyStem_append_html {a : String} (ha : a.data ≠ []) :
    pyStem (a ++ ".html") = a ∧ pySuffix (a ++ ".html") = ".html" := by
  have hy : rfindDot ".html".data = some 0 := rfl
  have h1 : rfindDot (a ++ ".html").data = some (a.data.length + 0) := by
    rw [string_data_append]
    exact rfindDot_append_of_some hy a.data
  have hlen : (a ++ ".html").data.length = a.data.length + 5 := by
    rw [string_data_append, List.length_append]
    rfl
  have hpos : 0 < a.data.length := List.length_pos.mpr ha
  have hc : 0 < a.data.length + 0 ∧ (a.data.length + 0) + 1 < (a ++ ".html").data.length := by
    refine ⟨by omega, ?_⟩
    rw [hlen]
    omega
  have hsufv : (pySuffix (a ++ ".html")).data = ".html".data := by
    rw [pySuffix_eq_of_some h1 hc, string_data_append]
    rw [Nat.add_zero]
    exact List.drop_left a.data ".html".data
  refine ⟨?_, strExt hsufv⟩
  apply strExt
  show (a ++ ".html").data.take
      ((a ++ ".html").data.length - (pySuffix (a ++ ".html")).data.length) = a.data
  rw [hsufv, hlen]
  have h5 : (".html" : String).data.length = 5 := rfl
  rw [h5]
  rw [string_data_append]
  have : a.data.length + 5 - 5 = a.data.length := by omega
  rw [this]
  exact List.take_left a.data ".html".data

theorem lastName_concat (l : List String) (x : String) : lastName (l ++ [x]) = x := by
  unfold lastName
  rw [List.getLast?_concat]
  rfl

theorem sidecarDir_withSuffix_html {input : FsPath}
    (hsuf : strLower (pySuffix (lastName input)) = ".ipynb") :
    sidecarDir (withSuffix input ".html")
      = input.dropLast ++ [pyStem (lastName input) ++ "_files"] := by
  unfold sidecarDir withSuffix
  rw [List.dropLast_concat, lastName_concat]
  rw [(pyStem_append_html (pyStem_data_ne_empty_of_ipynb hsuf)).1]

theorem input_ne_empty_of_ipynb {input : FsPath}
    (hsuf : strLower (pySuffix (lastName input)) = ".ipynb") : input ≠ [] := by
  intro h0
  subst h0
  exact absurd hsuf (by decide)

theorem input_ne_sidecar {input : FsPath}
    (hsuf : strLower (pySuffix (lastName input)) = ".ipynb") :
    input ≠ sidecarDir (withSuffix input ".html") := by
  intro he
  have hne : input ≠ [] := input_ne_empty_of_ipynb hsuf
  rw [sidecarDir_withSuffix_html hsuf] at he
  have hd := dropLast_append_lastName hne
  have he2 : input.dropLast ++ [lastName input]
      = input.dropLast ++ [pyStem (lastName input) ++ "_files"] := hd.trans he
  exact stem_files_ne (lastName input) (singleton_append_inj he2).symm

theorem withSuffix_length {p : FsPath} (h : p ≠ []) (s : String) :
    (withSuffix p s).length = p.length := by
  unfold withSuffix
  rw [List.length_append, List.length_dropLast]
  have := List.length_pos.mpr h
  simp
  omega

theorem loadNotebook_congr {Nb : Type} {cv : Converter Nb} {fs fs' : FS} {p : FsPath}
    (h : fs'.lookup p = fs.lookup p) :
    loadNotebook cv fs' p = loadNotebook cv fs p := by
  unfold loadNotebook executeNotebook FS.readFile
  rw [h]

/-! ## Claims C3, C4, C5 about `convert_single_file` successes -/

/-- C3: with `execute_notebook` set, a failure of the execution step is
non-fatal: the parsed, unexecuted notebook is used, the call still writes
the HTML rendered from it and returns the output path normally. -/
theorem c3_execution_failure_nonfatal {Nb : Type} {cv : Converter Nb} {fs : FS}
    {input out : FsPath} {content : String} {nb : Nb} {msg body : String}
    {res : List (String × String)} (out? : Option FsPath)
    (hout : out?.getD (withSuffix input ".html") = out)
    (hflag : cv.execute_notebook = true)
    (hfile : fs.lookup input = some (Entry.file content))
    (hsuf : strLower (pySuffix (lastName input)) = ".ipynb")
    (hparse : cv.readNb content = Except.ok nb)
    (hfail : cv.execNb input.dropLast nb = Except.error msg)
    (hexp : cv.from_notebook_node nb = (body, res))
    (hone : out ≠ [])
    (hpdir : fs.isDir out.dropLast = true)
    (hnotd : fs.lookup out ≠ some Entry.dir)
    (hscfile : ∀ c, fs.lookup (sidecarDir out) ≠ some (Entry.file c))
    (hresnd : ∀ n d, (n, d) ∈ res → fs.lookup (sidecarDir out ++ [n]) ≠ some Entry.dir)
    (hnodup : (res.map Prod.fst).Nodup) :
    ∃ fs', convert_single_file cv fs input out? = (fs', Except.ok out) ∧
      fs'.lookup out = some (Entry.file (cv.enhance_html_output body)) := by
  have hex : fs.pathExists input = true := by simp [FS.pathExists, hfile]
  have hload : loadNotebook cv fs input = Except.ok nb := by
    unfold loadNotebook executeNotebook
    rw [hflag]
    simp [FS.readFile, hfile, hparse, hfail]
  obtain ⟨fs', h1, h2, _, _, _, _⟩ :=
    convert_single_ok out? hout hex hsuf hload hexp hone hpdir hnotd hscfile hresnd hnodup
  exact ⟨fs', h1, h2⟩

/-- C4: for a valid notebook input with no output path supplied, the call
succeeds, returns the input path with its extension replaced by `.html`,
writes the rendered HTML exactly there, and touches no other path outside
the side-car resource directory. -/
theorem c4_single_default_output {Nb : Type} {cv : Converter Nb} {fs : FS}
    {input : FsPath} {nb : Nb} {body : String} {res : List (String × String)}
    (hex : fs.pathExists input = true)
    (hsuf : strLower (pySuffix (lastName input)) = ".ipynb")
    (hload : loadNotebook cv fs input = Except.ok nb)
    (hexp : cv.from_notebook_node nb = (body, res))
    (hpdir : fs.isDir (withSuffix input ".html").dropLast = true)
    (hnotd : fs.lookup (withSuffix input ".html") ≠ some Entry.dir)
    (hscfile : ∀ c, fs.lookup (sidecarDir (withSuffix input ".html"))
      ≠ some (Entry.file c))
    (hresnd : ∀ n d, (n, d) ∈ res →
      fs.lookup (sidecarDir (withSuffix input ".html") ++ [n]) ≠ some Entry.dir)
    (hnodup : (res.map Prod.fst).Nodup) :
    ∃ fs', convert_single_file cv fs input none
        = (fs', Except.ok (withSuffix input ".html")) ∧
      fs'.lookup (withSuffix input ".html")
        = some (Entry.file (cv.enhance_html_output body)) ∧
      (∀ q, q ≠ withSuffix input ".html" →
        q ≠ sidecarDir (withSuffix input ".html") →
        (∀ n, q ≠ sidecarDir (withSuffix input ".html") ++ [n]) →
        fs'.lookup q = fs.lookup q) := by
  have hone : withSuffix input ".html" ≠ [] := by simp [withSuffix]
  obtain ⟨fs', h1, h2, _, _, h5, _⟩ :=
    @convert_single_ok Nb cv fs input (withSuffix input ".html") nb body res none rfl
      hex hsuf hload hexp hone hpdir hnotd hscfile hresnd hnodup
  exact ⟨fs', h1, h2, h5⟩

/-- C5: when rendering yields a non-empty resource mapping, every resource
is written under the side-car directory `<output-stem>_files` next to the
HTML file, each at its mapped filename, and that directory exists as a
directory after the call. -/
theorem c5_sidecar_resources {Nb : Type} {cv : Converter Nb} {fs : FS}
    {input out : FsPath} {nb : Nb} {body : String} {res : List (String × String)}
    (out? : Option FsPath)
    (hout : out?.getD (withSuffix input ".html") = out)
    (hex : fs.pathExists input = true)
    (hsuf : strLower (pySuffix (lastName input)) = ".ipynb")
    (hload : loadNotebook cv fs input = Except.ok nb)
    (hexp : cv.from_notebook_node nb = (body, res))
    (hone : out ≠ [])
    (hpdir : fs.isDir out.dropLast = true)
    (hnotd : fs.lookup out ≠ some Entry.dir)
    (hscfile : ∀ c, fs.lookup (sidecarDir out) ≠ some (Entry.file c))
    (hresnd : ∀ n d, (n, d) ∈ res → fs.lookup (sidecarDir out ++ [n]) ≠ some Entry.dir)
    (hnodup : (res.map Prod.fst).Nodup)
    (hne : res ≠ []) :
    ∃ fs', convert_single_file cv fs input out? = (fs', Except.ok out) ∧
      fs'.isDir (sidecarDir out) = true ∧
      (∀ n d, (n, d) ∈ res → fs'.lookup (sidecarDir out ++ [n])
        = some (Entry.file d)) := by
  obtain ⟨fs', h1, _, h3, h4, _, _⟩ :=
    convert_single_ok out? hout hex hsuf hload hexp hone hpdir hnotd hscfile hresnd hnodup
  exact ⟨fs', h1, h4 hne, h3⟩

/-- C9: converting the same notebook twice with the same converter (not
executing the notebook), the second run still succeeds, writes to the same
default output path, and the HTML content written both times is the same
string (byte-identical output). -/
theorem c9_convert_twice_identical {Nb : Type} {cv : Converter Nb} {fs : FS}
    {input : FsPath} {nb : Nb} {body : String} {res : List (String × String)}
    (_hflag : cv.execute_notebook = false)
    (hex : fs.pathExists input = true)
    (hsuf : strLower (pySuffix (lastName input)) = ".ipynb")
    (hload : loadNotebook cv fs input = Except.ok nb)
    (hexp : cv.from_notebook_node nb = (body, res))
    (hpdir : fs.isDir (withSuffix input ".html").dropLast = true)
    (hnotd : fs.lookup (withSuffix input ".html") ≠ some Entry.dir)
    (hscfile : ∀ c, fs.lookup (sidecarDir (withSuffix input ".html"))
      ≠ some (Entry.file c))
    (hresnd : ∀ n d, (n, d) ∈ res →
      fs.lookup (sidecarDir (withSuffix input ".html") ++ [n]) ≠ some Entry.dir)
    (hnodup : (res.map Prod.fst).Nodup) :
    ∃ fs1 fs2,
      convert_single_file cv fs input none
        = (fs1, Except.ok (withSuffix input ".html")) ∧
      convert_single_file cv fs1 input none
        = (fs2, Except.ok (withSuffix input ".html")) ∧
      fs1.lookup (withSuffix input ".html")
        = some (Entry.file (cv.enhance_html_output body)) ∧
      fs2.lookup (withSuffix input ".html")
        = some (Entry.file (cv.enhance_html_output body)) := by
  have hinne : input ≠ [] := input_ne_empty_of_ipynb hsuf
  have hone : withSuffix input ".html" ≠ [] := by simp [withSuffix]
  have hlen_out : (withSuffix input ".html").length = input.length :=
    withSuffix_length hinne ".html"
  have hpos : 0 < input.length := List.length_pos.mpr hinne
  obtain ⟨fs1, h1run, h1out, h1res, h1sc, h1frame, h1frame0⟩ :=
    @convert_single_ok Nb cv fs input (withSuffix input ".html") nb body res none rfl
      hex hsuf hload hexp hone hpdir hnotd hscfile hresnd hnodup
  have h_in_out : input ≠ withSuffix input ".html" :=
    fun he => withSuffix_ne_self hsuf he.symm
  have h_in_sc : input ≠ sidecarDir (withSuffix input ".html") := input_ne_sidecar hsuf
  have h_in_scn : ∀ n', input ≠ sidecarDir (withSuffix input ".html") ++ [n'] := by
    intro n'
    apply ne_of_length_ne
    rw [List.length_append, sidecarDir_length hone, hlen_out]
    simp
  have hlk_input : fs1.lookup input = fs.lookup input :=
    h1frame input h_in_out h_in_sc h_in_scn
  have hex1 : fs1.pathExists input = true := by
    rw [FS.pathExists_congr input hlk_input]
    exact hex
  have hload1 : loadNotebook cv fs1 input = Except.ok nb := by
    rw [loadNotebook_congr hlk_input]
    exact hload
  have hscne : sidecarDir (withSuffix input ".html") ≠ [] := by simp [sidecarDir]
  have hpdir1 : fs1.isDir (withSuffix input ".html").dropLast = true := by
    rw [FS.isDir_congr _ (h1frame (withSuffix input ".html").dropLast
      (dropLast_ne_self hone) ?_ ?_)]
    · exact hpdir
    · apply ne_of_length_ne
      rw [List.length_dropLast, sidecarDir_length hone, hlen_out]
      omega
    · intro n'
      apply ne_of_length_ne
      rw [List.length_dropLast, List.length_append, sidecarDir_length hone, hlen_out]
      simp
  have hnotd1 : fs1.lookup (withSuffix input ".html") ≠ some Entry.dir := by
    rw [h1out]
    simp
  have hscfile1 : ∀ c, fs1.lookup (sidecarDir (withSuffix input ".html"))
      ≠ some (Entry.file c) := by
    intro c
    by_cases hres : res = []
    · rw [h1frame0 hres _ (sidecarDir_ne_self hone)]
      exact hscfile c
    · rw [FS.isDir_lookup hscne (h1sc hres)]
      simp
  have hresnd1 : ∀ n d, (n, d) ∈ res →
      fs1.lookup (sidecarDir (withSuffix input ".html") ++ [n]) ≠ some Entry.dir := by
    intro n d hm
    rw [h1res n d hm]
    simp
  obtain ⟨fs2, h2run, h2out, _, _, _, _⟩ :=
    @convert_single_ok Nb cv fs1 input (withSuffix input ".html") nb body res none rfl
      hex1 hsuf hload1 hexp hone hpdir1 hnotd1 hscfile1 hresnd1 hnodup
  exact ⟨fs1, fs2, h1run, h2run, h1out, h2out⟩

theorem lookup_none_ne {fs : FS} {p : FsPath} (h : fs.lookup p = none) (e : Entry) :
    fs.lookup p ≠ some e := fun hc => by
  rw [h] at hc
  exact Option.noConfusion hc

/-! ## Claim C6: explicit output path with a missing parent directory -/

/-- C6 (amended): `convert_single_file` does not create missing parent
directories of an explicitly supplied output path.  When the output
path's parent is not an existing directory, the call fails from the HTML
write — with `FileNotFoundError` when no regular file blocks the path,
with `NotADirectoryError` when one does — and the filesystem is returned
unchanged; parent directories are created only by `convert_directory`
before each per-file call. -/
theorem c6_explicit_output_missing_parent_fails {Nb : Type} {cv : Converter Nb} {fs : FS}
    {input : FsPath} {nb : Nb} (out : FsPath)
    (hex : fs.pathExists input = true)
    (hsuf : strLower (pySuffix (lastName input)) = ".ipynb")
    (hload : loadNotebook cv fs input = Except.ok nb)
    (hone : out ≠ [])
    (hpar : fs.isDir out.dropLast = false) :
    (fs.hasFileAncestor out = false →
      ∃ m, convert_single_file cv fs input (some out)
        = (fs, Except.error (Err.fileNotFound m))) ∧
    (fs.hasFileAncestor out = true →
      ∃ m, convert_single_file cv fs input (some out)
        = (fs, Except.error (Err.notADirectory m))) := by
  have h1 : out.isEmpty = false := by simp [hone]
  constructor
  · intro hanc
    refine ⟨out.render, ?_⟩
    unfold convert_single_file
    rw [hex]
    simp only [Bool.not_true, Bool.false_eq_true, if_false]
    rw [if_neg (fun hc => hc hsuf)]
    have hwf : fs.writeFile out
        (cv.enhance_html_output (cv.from_notebook_node nb).1)
        = Except.error (Err.fileNotFound out.render) := by
      unfold FS.writeFile
      rw [h1, hpar, hanc]
      simp
    simp [convertBody, hload, hwf]
  · intro hanc
    refine ⟨out.render, ?_⟩
    unfold convert_single_file
    rw [hex]
    simp only [Bool.not_true, Bool.false_eq_true, if_false]
    rw [if_neg (fun hc => hc hsuf)]
    have hwf : fs.writeFile out
        (cv.enhance_html_output (cv.from_notebook_node nb).1)
        = Except.error (Err.notADirectory out.render) := by
      unfold FS.writeFile
      rw [h1, hpar, hanc]
      simp
    simp [convertBody, hload, hwf]

/-- C6 counterexample: converting a notebook with an explicit output path
whose parent directory does not exist fails with `FileNotFoundError` and
leaves the filesystem unchanged, instead of creating the parent
directories and succeeding as the claim states. -/
theorem c6_counterexample :
    convert_single_file sampleCv fsSingle ["nb.ipynb"] (some ["sub", "out.html"])
      = (fsSingle, Except.error (Err.fileNotFound "sub/out.html")) := by
  rfl

theorem c6_witness :
    (FS.isDir fsSingle ["sub"] = false ∧
      FS.hasFileAncestor fsSingle ["sub", "out.html"] = false ∧
      ∃ m, convert_single_file sampleCv fsSingle ["nb.ipynb"] (some ["sub", "out.html"])
        = (fsSingle, Except.error (Err.fileNotFound m))) ∧
    (FS.isDir fsSingle ["nb.ipynb"] = false ∧
      FS.hasFileAncestor fsSingle ["nb.ipynb", "x.html"] = true ∧
      ∃ m, convert_single_file sampleCv fsSingle ["nb.ipynb"] (some ["nb.ipynb", "x.html"])
        = (fsSingle, Except.error (Err.notADirectory m))) := by
  constructor
  · exact ⟨by decide, by decide,
      (c6_explicit_output_missing_parent_fails ["sub", "out.html"] (by decide) (by decide)
        (show loadNotebook sampleCv fsSingle ["nb.ipynb"] = Except.ok () from rfl)
        (by decide) (by decide)).1 (by decide)⟩
  · exact ⟨by decide, by decide,
      (c6_explicit_output_missing_parent_fails ["nb.ipynb", "x.html"] (by decide) (by decide)
        (show loadNotebook sampleCv fsSingle ["nb.ipynb"] = Except.ok () from rfl)
        (by decide) (by decide)).2 (by decide)⟩

/-! ## Witnesses: the claim theorems applied at closed concrete inputs -/

theorem c1_witness :
    (FS.pathExists ⟨[]⟩ ["missing.ipynb"] = false ∧
      ∃ m, convert_single_file sampleCv ⟨[]⟩ ["missing.ipynb"] none
        = (⟨[]⟩, Except.error (Err.fileNotFound m))) ∧
    (FS.pathExists fsNotes ["notes.txt"] = true ∧
      strLower (pySuffix (lastName ["notes.txt"])) ≠ ".ipynb" ∧
      ∃ m, convert_single_file sampleCv fsNotes ["notes.txt"] none
        = (fsNotes, Except.error (Err.invalidFormat m))) := by
  constructor
  · exact ⟨by decide,
      (c1_single_precondition_errors sampleCv ⟨[]⟩ ["missing.ipynb"] none).1 (by decide)⟩
  · exact ⟨by decide, by decide,
      (c1_single_precondition_errors sampleCv fsNotes ["notes.txt"] none).2
        (by decide) (by decide)⟩

theorem c2_witness :
    (∃ fs' results, convert_directory sampleCv fsBatch ["nbs"] none false
      = (fs', Except.ok results)) ∧
    (convertLoop sampleCv ["nbs"] ["nbs"]
        (fsBatch.glob ["nbs"] (splitPattern "*.ipynb")) fsBatch).2.1.length
      + (convertLoop sampleCv ["nbs"] ["nbs"]
        (fsBatch.glob ["nbs"] (splitPattern "*.ipynb")) fsBatch).2.2.length
      = (fsBatch.glob ["nbs"] (splitPattern "*.ipynb")).length ∧
    (convert_directory sampleCv fsBatch ["nbs"] none false).2
      = Except.ok [["nbs", "a.html"], ["nbs", "b.html"]] ∧
    (convertLoop sampleCv ["nbs"] ["nbs"]
        (fsBatch.glob ["nbs"] (splitPattern "*.ipynb")) fsBatch).2.2
      = [["nbs", "bad.ipynb"]] := by
  refine ⟨(c2_batch_best_effort sampleCv fsBatch ["nbs"] none false
      (by decide) (by decide)).1 rfl,
    (c2_batch_best_effort sampleCv fsBatch ["nbs"] none false
      (by decide) (by decide)).2.2 _ _ _, by rfl, by rfl⟩

theorem c3_witness :
    sampleCvExec.execute_notebook = true ∧
    sampleCvExec.execNb [] () = Except.error "no kernel" ∧
    ∃ fs', convert_single_file sampleCvExec fsSingle ["nb.ipynb"] none
        = (fs', Except.ok ["nb.html"]) ∧
      fs'.lookup ["nb.html"]
        = some (Entry.file ("<style>css</style>" ++ "<html><body>nb</body></html>")) := by
  refine ⟨rfl, rfl, ?_⟩
  exact c3_execution_failure_nonfatal none rfl rfl rfl (by decide) rfl rfl rfl
    (by decide) (by decide) (lookup_none_ne (by rfl) _) (fun c => lookup_none_ne (by rfl) _)
    (fun n d h => absurd h (List.not_mem_nil _)) (by simp)

theorem c4_witness :
    FS.pathExists fsSingle ["nb.ipynb"] = true ∧
    ∃ fs', convert_single_file sampleCv fsSingle ["nb.ipynb"] none
        = (fs', Except.ok (withSuffix ["nb.ipynb"] ".html")) ∧
      fs'.lookup (withSuffix ["nb.ipynb"] ".html")
        = some (Entry.file ("<style>css</style>" ++ "<html><body>nb</body></html>")) ∧
      (∀ q, q ≠ withSuffix ["nb.ipynb"] ".html" →
        q ≠ sidecarDir (withSuffix ["nb.ipynb"] ".html") →
        (∀ n, q ≠ sidecarDir (withSuffix ["nb.ipynb"] ".html") ++ [n]) →
        fs'.lookup q = fsSingle.lookup q) := by
  refine ⟨by decide, ?_⟩
  exact c4_single_default_output (by decide) (by decide) rfl rfl (by decide)
    (lookup_none_ne (by rfl) _) (fun c => lookup_none_ne (by rfl) _)
    (fun n d h => absurd h (List.not_mem_nil _)) (by simp)

theorem c5_witness :
    ∃ fs', convert_single_file sampleCvRes fsSingle ["nb.ipynb"] none
        = (fs', Except.ok ["nb.html"]) ∧
      fs'.isDir ["nb_files"] = true ∧
      (∀ n d, (n, d) ∈ [("output_1_0.png", ("PNGDATA" : String))] →
        fs'.lookup (["nb_files"] ++ [n]) = some (Entry.file d)) := by
  exact c5_sidecar_resources none rfl (by decide) (by decide) rfl rfl (by decide)
    (by decide) (lookup_none_ne (by rfl) _) (fun c => lookup_none_ne (by rfl) _)
    (by intro n d h; simp at h; obtain ⟨rfl, rfl⟩ := h; exact lookup_none_ne (by rfl) _)
    (by decide) (by decide)

/-- C7 counterexample: `fsBlock` has a valid input directory `nbs`
holding a convertible notebook, yet requesting output directory
`blocker/out` — whose first component is an existing regular file — makes
the whole batch call raise `NotADirectoryError` (the
`mkdir(parents=True, exist_ok=True)` at line 227 sits outside any `try`),
refuting the claim that a valid `input_dir` never raises
`NotADirectoryError`. -/
theorem c7_counterexample :
    (FS.pathExists fsBlock ["nbs"] = true ∧ FS.isDir fsBlock ["nbs"] = true) ∧
    convert_directory sampleCv fsBlock ["nbs"] (some ["blocker", "out"]) false
      = (fsBlock, Except.error (Err.notADirectory "blocker")) :=
  ⟨by decide, by rfl⟩

theorem c7_witness :
    (¬(FS.pathExists fsSingle ["nope"] = true ∧ FS.isDir fsSingle ["nope"] = true) ∧
      ∃ m, convert_directory sampleCv fsSingle ["nope"] none false
        = (fsSingle, Except.error (Err.notADirectory m))) ∧
    ((FS.pathExists fsBatch ["nbs"] = true ∧ FS.isDir fsBatch ["nbs"] = true) ∧
      ∃ fs' results, convert_directory sampleCv fsBatch ["nbs"] none true
        = (fs', Except.ok results)) ∧
    ((fsBlock.mkdirParents ["blocker", "out"]).2
        = Except.error (Err.notADirectory "blocker") ∧
      convert_directory sampleCv fsBlock ["nbs"] (some ["blocker", "out"]) false
        = ((fsBlock.mkdirParents ["blocker", "out"]).1,
           Except.error (Err.notADirectory "blocker"))) := by
  refine ⟨?_, ?_, ?_⟩
  · exact ⟨by decide,
      (c7_batch_root_check sampleCv fsSingle ["nope"] none false).1 (by decide)⟩
  · exact ⟨by decide,
      (c7_batch_root_check sampleCv fsBatch ["nbs"] none true).2.1 (by decide) rfl⟩
  · exact ⟨by rfl,
      (c7_batch_root_check sampleCv fsBlock ["nbs"] (some ["blocker", "out"]) false).2.2.2
        (by decide) ["blocker", "out"] (Err.notADirectory "blocker") rfl (by rfl)⟩

theorem c8_witness :
    ["root", "sub", "deep.ipynb"] ∈ fsNested.glob ["root"] (splitPattern "**/*.ipynb") ∧
    ¬(["root", "sub", "deep.ipynb"] ∈ fsNested.glob ["root"] (splitPattern "*.ipynb")) ∧
    ((⟨[]⟩ : FS).mkdirParents ["out", "sub"]).1.isDir ["out", "sub"] = true := by
  refine ⟨?_, ?_, ?_⟩
  · exact (c8_batch_output_layout sampleCv fsNested fsNested ["root"] ["out"] []
      ["root", "sub", "deep.ipynb"]).2.1.mpr
      ⟨Entry.file "ok", ["sub"], "deep.ipynb", by decide, rfl, ⟨"deep".data, rfl⟩⟩
  · intro hmem
    obtain ⟨e, n, hm, hp, hs⟩ := (c8_batch_output_layout sampleCv fsNested fsNested
      ["root"] ["out"] [] ["root", "sub", "deep.ipynb"]).1.mp hmem
    have := congrArg List.length hp
    simp at this
  · exact (c8_batch_output_layout sampleCv (⟨[]⟩ : FS) (⟨[]⟩ : FS) ["root"] ["out"] []
      ["root", "sub", "deep.ipynb"]).2.2.2 ["out", "sub"] ["out", "sub"]
      (fun r c _ => lookup_none_ne (by rfl) _) ⟨[], by simp⟩ (by decide)

theorem c9_witness :
    ∃ fs1 fs2,
      convert_single_file sampleCv fsSingle ["nb.ipynb"] none
        = (fs1, Except.ok (withSuffix ["nb.ipynb"] ".html")) ∧
      convert_single_file sampleCv fs1 ["nb.ipynb"] none
        = (fs2, Except.ok (withSuffix ["nb.ipynb"] ".html")) ∧
      fs1.lookup (withSuffix ["nb.ipynb"] ".html")
        = some (Entry.file ("<style>css</style>" ++ "<html><body>nb</body></html>")) ∧
      fs2.lookup (withSuffix ["nb.ipynb"] ".html")
        = some (Entry.file ("<style>css</style>" ++ "<html><body>nb</body></html>")) := by
  exact c9_convert_twice_identical rfl (by decide) (by decide) rfl rfl (by decide)
    (lookup_none_ne (by rfl) _) (fun c => lookup_none_ne (by rfl) _)
    (fun n d h => absurd h (List.not_mem_nil _)) (by simp)

theorem c10_witness :
    strLower (pySuffix (lastName ["NB.IPYNB"])) = ".ipynb" ∧
    (∀ m, (convert_single_file sampleCv fsUpper ["NB.IPYNB"] none).2
      ≠ Except.error (Err.invalidFormat m)) ∧
    (convert_single_file sampleCv fsUpper ["NB.IPYNB"] none).2
      = Except.ok ["NB.html"] :=
  ⟨by decide,
    c10_extension_check_case_insensitive sampleCv fsUpper ["NB.IPYNB"] none
      (by decide) (by decide),
    by rfl⟩
